import Mathlib

/-!
# Verification of the Dolly Hotel CMS core logic

A shallow embedding of the repository's admin API route handlers and
client fetch wrapper, together with theorems about the testable
properties of the specification.

Embedded source files:
* `src/unnamed/part_001` — the `/api/admin/rooms` route (GET/POST/PUT/DELETE
  on `HotelCategory` rows with image/video cleanup).
* `src/app/api/admin/categories/[id]/route.ts` — GET/PUT/DELETE on one
  category (price replacement, cascade delete).
* `src/app/api/admin/gallery/route.ts` and
  `src/app/api/admin/gallery/[id]/route.ts` — gallery item CRUD.
* `src/lib/api-client.ts` — `fetchWithTimeout` retry loop.

`src/lib/auth.ts` (`requireAdmin`) and `src/lib/validators.ts` (the Zod
schemas) are not part of the provided sources; they are modelled from the
spec where needed (see the doc comments on `requireAdminOk` and the
validator oracle parameters).

JavaScript strings are modelled as `List Char` for the regex scanners and
as `String` elsewhere; machine integers do not occur (ids and money are
plain integers well below any overflow range in this code base).
-/

/-! ## Character helpers -/

/-- The character class `[^/?#]` used by the UploadThing URL patterns:
`true` when the character is one of the three separators. -/
def isSep (c : Char) : Bool := c == '/' || c == '?' || c == '#'

/-- The character class `[^/?]` used by the single pattern in the
categories `[id]` DELETE handler (note: no `#`). -/
def isSepNoHash (c : Char) : Bool := c == '/' || c == '?'

/-- `[a-z0-9]` on code points, i.e. the complement of the class
`[^a-z0-9]` in the slug regex. -/
def isLowerAlnum (c : Char) : Bool :=
  (97 ≤ c.toNat && c.toNat ≤ 122) || (48 ≤ c.toNat && c.toNat ≤ 57)

/-- JS `s.startsWith(pre)` on the underlying character lists. -/
def strStartsWith (s pre : String) : Bool := pre.data.isPrefixOf s.data

/-- Models the JS guard `s.trim() !== ''` being false, i.e. the string is
empty or all whitespace.  (JS trims a slightly larger Unicode whitespace
set than `Char.isWhitespace`; the difference is irrelevant here because
every route only uses the guard in front of the URL-key extraction, which
returns no key on whitespace-only strings either way.) -/
def isBlank (s : String) : Bool := s.data.all (fun c => c.isWhitespace)

/-! ## Video-key extraction scanners

The source extracts an UploadThing file key from a stored video URL by
trying a list of JS regexes in order and taking capture group 1 of the
first that matches.  Each regex is embedded as a left-to-right scanner
over the character list; a scanner returns the capture of the leftmost
position at which the whole regex matches, exactly as `String.match`
does. -/

/-- Scanner for patterns of the shape `PRE([^X]+)` (a literal prefix
followed by a nonempty capture of characters outside the stop set):
covers `\/f\/([^/?#]+)`, `utfs\.io\/f\/([^/?#]+)` and the
`\/f\/([^/?]+)` variant.  At each position: if the literal matches and a
nonempty capture follows, succeed; otherwise advance one character, as
the JS engine does. -/
def scanKeyAfter (stop : Char → Bool) (pre : List Char) : List Char → Option (List Char)
  | [] => none
  | l@(_ :: t) =>
    (if pre.isPrefixOf l then
      let cap := (l.drop pre.length).takeWhile (fun c => !(stop c))
      if cap.isEmpty then none else some cap
     else none) <|> scanKeyAfter stop pre t

/-- Scanner for `\/a\/[^/]+\/([^/?#]+)` (app-scoped UploadThing URL):
`/a/`, then a nonempty slash-free segment, then `/`, then a nonempty
capture.  `[^/]+` is greedy but cannot cross a slash, so the segment is
forced to end at the first following slash; on failure the engine
restarts one character further right. -/
def scanAppKey : List Char → Option (List Char)
  | [] => none
  | l@(_ :: t) =>
    (if ('/' :: 'a' :: '/' :: []).isPrefixOf l then
      let rest := l.drop 3
      let run := rest.takeWhile (fun c => !(c == '/'))
      if run.isEmpty then none
      else
        match rest.drop run.length with
        | '/' :: after =>
          let cap := after.takeWhile (fun c => !(isSep c))
          if cap.isEmpty then none else some cap
        | _ => none
     else none) <|> scanAppKey t

/-- Helper for `\/([^/?#]+)$`: starting anywhere in the remainder, find a
slash whose entire suffix (to the end of the string) is nonempty and free
of `/`, `?`, `#`.  This is what the lazy `.*?\/([^/?#]+)$` tail of the
`uploadthing` pattern matches. -/
def tailKeyFrom : List Char → Option (List Char)
  | [] => none
  | c :: t =>
    if c == '/' then
      if !t.isEmpty && t.all (fun d => !(isSep d)) then some t else tailKeyFrom t
    else tailKeyFrom t

/-- Scanner for `uploadthing.*?\/([^/?#]+)$`: an occurrence of the
literal `uploadthing`, then (lazily) anything, then a final path segment
captured up to the end of the string. -/
def scanUploadKey : List Char → Option (List Char)
  | [] => none
  | l@(_ :: t) =>
    (if ('u' :: 'p' :: 'l' :: 'o' :: 'a' :: 'd' :: 't' :: 'h' :: 'i' :: 'n' :: 'g' :: []).isPrefixOf l then
      tailKeyFrom (l.drop 11)
     else none) <|> scanUploadKey t

/-- Scanner for `utfs\.io\/[af]\/(?:[^/]+\/)?([^/?#]+)`: the literal
`utfs.io/`, one of `a`/`f`, `/`, then an optional (greedy) slash-free
segment plus slash, then a nonempty capture.  When the greedy variant
with the optional group fails to produce a capture, the engine backtracks
and retries without the group, which is what `withoutGroup` models. -/
def scanUtfsKey : List Char → Option (List Char)
  | [] => none
  | l@(_ :: t) =>
    (if ('u' :: 't' :: 'f' :: 's' :: '.' :: 'i' :: 'o' :: '/' :: []).isPrefixOf l then
      match l.drop 8 with
      | c :: '/' :: rest2 =>
        if c == 'a' || c == 'f' then
          let run := rest2.takeWhile (fun d => !(d == '/'))
          let withGroup :=
            if run.isEmpty then none
            else
              match rest2.drop run.length with
              | '/' :: after =>
                let cap := after.takeWhile (fun d => !(isSep d))
                if cap.isEmpty then none else some cap
              | _ => none
          let withoutGroup :=
            let cap := rest2.takeWhile (fun d => !(isSep d))
            if cap.isEmpty then none else some cap
          withGroup <|> withoutGroup
        else none
      | _ => none
     else none) <|> scanUtfsKey t

/-- The pattern list of the rooms PUT handler (`src/unnamed/part_001`,
lines 179–194): `\/f\/…`, `\/a\/…`, `uploadthing…$`, `utfs.io\/[af]\/…`,
first match wins. -/
def extractVideoKeyUpdate (u : List Char) : Option (List Char) :=
  scanKeyAfter isSep ('/' :: 'f' :: '/' :: []) u
    <|> scanAppKey u
    <|> scanUploadKey u
    <|> scanUtfsKey u

/-- The pattern list of the rooms DELETE handler (`src/unnamed/part_001`,
lines 333–347): `\/f\/…`, `uploadthing…$`, `utfs\.io\/f\/…`. -/
def extractVideoKeyDelete (u : List Char) : Option (List Char) :=
  scanKeyAfter isSep ('/' :: 'f' :: '/' :: []) u
    <|> scanUploadKey u
    <|> scanKeyAfter isSep
          ('u' :: 't' :: 'f' :: 's' :: '.' :: 'i' :: 'o' :: '/' :: 'f' :: '/' :: []) u

/-- The single pattern `\/f\/([^/?]+)` of the categories `[id]` DELETE
handler (`route.ts` line 200). -/
def extractVideoKeyCategory (u : List Char) : Option (List Char) :=
  scanKeyAfter isSepNoHash ('/' :: 'f' :: '/' :: []) u

/-- String-level wrapper of `extractVideoKeyUpdate`. -/
def extractVideoKeyUpdateS (u : String) : Option String :=
  (extractVideoKeyUpdate u.data).map fun l => ⟨l⟩

/-- String-level wrapper of `extractVideoKeyDelete`. -/
def extractVideoKeyDeleteS (u : String) : Option String :=
  (extractVideoKeyDelete u.data).map fun l => ⟨l⟩

/-- String-level wrapper of `extractVideoKeyCategory`. -/
def extractVideoKeyCategoryS (u : String) : Option String :=
  (extractVideoKeyCategory u.data).map fun l => ⟨l⟩

/-! ## Slug derivation

`title.toLowerCase().replace(/[^a-z0-9]+/g, '-').replace(/(^-|-$)/g, '')`
(`src/unnamed/part_001`, lines 69 and 140). -/

/-- `replace(/[^a-z0-9]+/g, '-')`: every maximal run of characters
outside `[a-z0-9]` becomes a single `-`.  The boolean marks whether the
previous character already belonged to such a run. -/
def collapseRuns : Bool → List Char → List Char
  | _, [] => []
  | inRun, c :: cs =>
    if isLowerAlnum c then c :: collapseRuns false cs
    else if inRun then collapseRuns true cs
    else '-' :: collapseRuns true cs

/-- First char is a dash. -/
def headDash : List Char → Bool
  | [] => false
  | c :: _ => c == '-'

/-- Last char is a dash. -/
def lastDash : List Char → Bool
  | [] => false
  | [c] => c == '-'
  | _ :: c :: t => lastDash (c :: t)

/-- Everything but the last character. -/
def dropLastC : List Char → List Char
  | [] => []
  | [_] => []
  | a :: c :: t => a :: dropLastC (c :: t)

/-- The `^-` alternative of `replace(/(^-|-$)/g, '')`: removes one
leading dash. -/
def dropLeadingDash : List Char → List Char
  | [] => []
  | c :: t => if c == '-' then t else c :: t

/-- The `-$` alternative: removes one trailing dash. -/
def dropTrailingDash (l : List Char) : List Char :=
  if lastDash l then dropLastC l else l

/-- No two adjacent dashes. -/
def noDoubleDash : List Char → Bool
  | [] => true
  | [_] => true
  | a :: c :: t => !(a == '-' && c == '-') && noDoubleDash (c :: t)

/-- The slug computation on character lists. -/
def slugChars (l : List Char) : List Char :=
  dropTrailingDash (dropLeadingDash (collapseRuns false (l.map Char.toLower)))

/-- `title.toLowerCase().replace(/[^a-z0-9]+/g, '-').replace(/(^-|-$)/g, '')`. -/
def slugify (s : String) : String := ⟨slugChars s.data⟩

/-! ## Data model

The relational schema (`HotelCategory`, `Price`, `GalleryImage`) with the
fields the embedded handlers read or write.  Row ids are `Nat`; Prisma's
autoincrement is modelled by the `nextCatId` / `nextImgId` counters. -/

/-- One `HotelCategory` row. -/
structure CategoryRow where
  id : Nat
  slug : String
  title : String
  description : String
  specs : List (String × Bool)
  essentialAmenities : List String
  roomCount : Nat
  videoUrl : Option String
  deriving DecidableEq, Repr

/-- One `Price` row (child of a category). -/
structure PriceRow where
  categoryId : Nat
  hourlyHours : Int
  rateCents : Int
  label : Option String
  deriving DecidableEq, Repr

/-- One `GalleryImage` row.  `categoryId = none` for standalone gallery
items, `some id` for category-owned images. -/
structure ImageRow where
  id : Nat
  category : String
  url : String
  publicId : String
  caption : Option String
  categoryId : Option Nat
  deriving DecidableEq, Repr

/-- The database state. -/
structure DB where
  categories : List CategoryRow
  images : List ImageRow
  prices : List PriceRow
  nextCatId : Nat
  nextImgId : Nat
  deriving DecidableEq, Repr

/-- `prisma.hotelCategory.findUnique({ where: { id } })`. -/
def findCat (db : DB) (i : Nat) : Option CategoryRow :=
  db.categories.find? (fun c => decide (c.id = i))

/-- The child images of category `i` (the `include: { images: true }`
relation load). -/
def imagesOf (db : DB) (i : Nat) : List ImageRow :=
  db.images.filter (fun r => decide (r.categoryId = some i))

/-- The `Price` rows of category `i`. -/
def pricesOf (db : DB) (i : Nat) : List PriceRow :=
  db.prices.filter (fun r => decide (r.categoryId = i))

/-- `orderBy: { hourlyHours: 'asc' }`, as insertion sort. -/
def insortPrice (p : PriceRow) : List PriceRow → List PriceRow
  | [] => [p]
  | q :: qs =>
    if p.hourlyHours ≤ q.hourlyHours then p :: q :: qs else q :: insortPrice p qs

/-- Ascending sort of price rows by `hourlyHours`. -/
def sortPrices : List PriceRow → List PriceRow
  | [] => []
  | p :: ps => insortPrice p (sortPrices ps)

/-- Observable side effects of one request, in issue order. -/
inductive Ev where
  | storageDelete (keys : List String)
  | storageUpload (fileType : String)
  | dbDeleteCategory (id : Nat)
  | dbWrite (descr : String)
  deriving DecidableEq, Repr

/-- Result of one route handler invocation. -/
structure RRes where
  status : Nat
  db : DB
  events : List Ev
  deriving DecidableEq, Repr

/-- All keys passed to `utapi.deleteFiles` during a request. -/
def scheduledKeys (evs : List Ev) : List String :=
  evs.foldr (fun e acc => match e with | Ev.storageDelete ks => ks ++ acc | _ => acc) []

/-- `true` when no storage deletion is issued before the category row has
been deleted from the database (the "database first, storage second"
discipline of the claim about category deletion). -/
def storageOnlyAfterDbDelete : List Ev → Bool
  | [] => true
  | Ev.dbDeleteCategory _ :: _ => true
  | Ev.storageDelete _ :: _ => false
  | _ :: t => storageOnlyAfterDbDelete t

/-- Modelled from the spec: `src/lib/auth.ts` (`requireAdmin`) is not in
the provided sources.  Per spec §6, it is "a function the core calls
before any admin operation that fails the whole request with an
unauthorized signal if the caller lacks a valid admin session"; every
handler that calls it catches the error and answers HTTP 401 before any
database or storage operation.  The session is therefore a boolean:
`requireAdminOk s = true` iff a valid admin session is present. -/
def requireAdminOk (session : Bool) : Bool := session

/-! ## `/api/admin/rooms` (`src/unnamed/part_001`)

These handlers never call `requireAdmin`; the `session` parameter is
accepted for uniformity with the guarded routes and is unused, exactly
mirroring the absence of any session check in the source. -/

/-- An image descriptor `{ url, publicId }` in a rooms payload. -/
structure ImgIn where
  url : String
  publicId : String
  deriving DecidableEq, Repr

/-- A video descriptor in a rooms payload (only `url` is read). -/
structure VidIn where
  url : String
  publicId : String
  deriving DecidableEq, Repr

/-- The JSON body of rooms POST/PUT.  `Option` marks fields that may be
absent (JS `undefined`/`null`). -/
structure RoomBody where
  id : Option Nat
  title : String
  description : Option String
  specs : List (String × Bool)
  essentialAmenities : Option (List String)
  roomCount : Option Nat
  images : Option (List ImgIn)
  videos : Option (List VidIn)
  deriving DecidableEq, Repr

/-- `videos && videos.length > 0 ? videos[0].url : null`. -/
def firstVideoUrl (videos : Option (List VidIn)) : Option String :=
  ((videos.getD []).head?).map (fun v => v.url)

/-- The image rows created by `images.create` in rooms POST/PUT:
`category: 'Rooms'`, caption `` `${title} - Image ${index + 1}` ``, in
submission order; `nextId` is the autoincrement id of the first new row
and `k` the 0-based index of the first descriptor. -/
def buildImages (title : String) (catId : Nat) (nextId : Nat) (k : Nat) :
    List ImgIn → List ImageRow
  | [] => []
  | im :: rest =>
    { id := nextId, category := "Rooms", url := im.url, publicId := im.publicId,
      caption := some (title ++ " - Image " ++ toString (k + 1)), categoryId := some catId }
      :: buildImages title catId (nextId + 1) (k + 1) rest

/-- The `fileKeysToDelete` computation of the rooms PUT handler (lines
157–204): keys of existing images whose truthy `publicId` is not among
the new payload's `publicId`s, then — when a non-blank video URL is
stored and differs from the incoming one — the key extracted from the
old video URL, if any pattern matches. -/
def fileKeysToDelete (b : RoomBody) (cat : CategoryRow) (existingImages : List ImageRow) :
    List String :=
  let newImageKeys := (b.images.getD []).map (fun im => im.publicId)
  let newVideoUrl := firstVideoUrl b.videos
  let imgKeys :=
    (existingImages.filter
      (fun im => !(im.publicId == "") && !(newImageKeys.contains im.publicId))).map
      (fun im => im.publicId)
  let vidKeys :=
    match cat.videoUrl with
    | none => []
    | some u =>
      if !(u == "") && !(isBlank u) then
        if some u = newVideoUrl then []
        else (extractVideoKeyUpdateS u).toList
      else []
  imgKeys ++ vidKeys

/-- `POST /api/admin/rooms` (create a room/category).  No session check
in the source.  The unique constraint on `slug` (spec §6) makes
`prisma.hotelCategory.create` throw on a duplicate slug, which the
handler's catch block maps to 500 with no row created. -/
def roomsPOST (_session : Bool) (b : RoomBody) (db : DB) : RRes :=
  let slug := slugify b.title
  if db.categories.any (fun c => c.slug == slug) then
    { status := 500, db := db, events := [] }
  else
    let imgs := b.images.getD []
    let row : CategoryRow :=
      { id := db.nextCatId, slug := slug, title := b.title,
        description := b.description.getD "", specs := b.specs,
        essentialAmenities := b.essentialAmenities.getD [],
        roomCount := b.roomCount.getD 0, videoUrl := firstVideoUrl b.videos }
    let newImgs := buildImages b.title db.nextCatId db.nextImgId 0 imgs
    { status := 201,
      db := { db with
                categories := db.categories ++ [row],
                images := db.images ++ newImgs,
                nextCatId := db.nextCatId + 1,
                nextImgId := db.nextImgId + imgs.length },
      events := [Ev.dbWrite "hotelCategory.create"] }

/-- `PUT /api/admin/rooms` (update a room/category).  No session check in
the source.  Steps: falsy-id check (400), slug derivation, load existing
row with images (404 when absent), compute `fileKeysToDelete`, issue the
storage deletion (await, errors swallowed), delete all child image rows,
then update the category row and recreate the images.  The final update
throws on a slug collision with a different row (unique constraint);
the handler then answers 500 — with the child images already gone, since
the two database steps are not wrapped in a transaction. -/
def roomsPUT (_session : Bool) (b : RoomBody) (db : DB) : RRes :=
  match b.id with
  | none => { status := 400, db := db, events := [] }
  | some i =>
    -- JS `if (!id)`: the number 0 is falsy.
    if i = 0 then { status := 400, db := db, events := [] }
    else
      let slug := slugify b.title
      match findCat db i with
      | none => { status := 404, db := db, events := [] }
      | some cat =>
        let keys := fileKeysToDelete b cat (imagesOf db i)
        let storageEvs := if keys.isEmpty then [] else [Ev.storageDelete keys]
        let db1 : DB :=
          { db with images := db.images.filter (fun r => !(decide (r.categoryId = some i))) }
        if db.categories.any (fun c => !(c.id == i) && c.slug == slug) then
          { status := 500, db := db1,
            events := storageEvs ++ [Ev.dbWrite "galleryImage.deleteMany"] }
        else
          let imgs := b.images.getD []
          let row : CategoryRow :=
            { id := i, slug := slug, title := b.title,
              description := b.description.getD "", specs := b.specs,
              essentialAmenities := b.essentialAmenities.getD [],
              roomCount := b.roomCount.getD 0, videoUrl := firstVideoUrl b.videos }
          let newImgs := buildImages b.title i db1.nextImgId 0 imgs
          { status := 200,
            db := { db1 with
                      categories := db1.categories.map (fun c => if c.id = i then row else c),
                      images := db1.images ++ newImgs,
                      nextImgId := db1.nextImgId + imgs.length },
            events := storageEvs ++ [Ev.dbWrite "galleryImage.deleteMany",
                                     Ev.dbWrite "hotelCategory.update"] }

/-- Cascade deletion of category `i`: the category row plus its child
`GalleryImage` and `Price` rows (the schema's cascade rules, spec §6). -/
def cascadeDelete (db : DB) (i : Nat) : DB :=
  { db with
    categories := db.categories.filter (fun c => !(decide (c.id = i))),
    images := db.images.filter (fun r => !(decide (r.categoryId = some i))),
    prices := db.prices.filter (fun r => !(decide (r.categoryId = i))) }

/-- The `fileKeysToDelete` computation of the rooms DELETE handler
(lines 305–354): truthy `publicId`s of all child images, then the key
extracted from a non-blank `videoUrl`, if any of its three patterns
matches.  (The `roomWithVideos.videos` block of the source reads a
relation that does not exist on the Prisma result, so it never
contributes keys.) -/
def roomsDeleteKeys (cat : CategoryRow) (existingImages : List ImageRow) : List String :=
  (existingImages.filter (fun im => !(im.publicId == ""))).map (fun im => im.publicId)
    ++ (match cat.videoUrl with
        | none => []
        | some u =>
          if !(u == "") && !(isBlank u) then (extractVideoKeyDeleteS u).toList
          else [])

/-- `DELETE /api/admin/rooms?id=…`.  No session check in the source.
Storage deletion is awaited FIRST (failure caught and logged), then the
category row is deleted with cascade.  `storageOk` is the outcome of the
`utapi.deleteFiles` call; the handler's catch block makes the response
and the database mutation independent of it. -/
def roomsDELETE (_session : Bool) (idParam : Option Nat) (storageOk : Bool) (db : DB) : RRes :=
  match idParam with
  | none => { status := 400, db := db, events := [] }
  | some i =>
    match findCat db i with
    | none => { status := 404, db := db, events := [] }
    | some cat =>
      let keys := roomsDeleteKeys cat (imagesOf db i)
      let storageEvs := if keys.isEmpty then [] else [Ev.storageDelete keys]
      -- `storageOk` is only logged; both branches continue identically.
      let _ := storageOk
      { status := 200, db := cascadeDelete db i,
        events := storageEvs ++ [Ev.dbDeleteCategory i] }

/-! ## `/api/admin/categories/[id]` (`route.ts`)

These handlers call `requireAdmin` first; an invalid session is caught
and answered with 401 before any database or storage access. -/

/-- An incoming price tier `{ hourlyHours, rateCents, label? }`. -/
structure PriceIn where
  hourlyHours : Int
  rateCents : Int
  label : Option String
  deriving DecidableEq, Repr

/-- `label: price.label || null` — an empty-string label is stored as
null. -/
def normLabel : Option String → Option String
  | none => none
  | some s => if s == "" then none else some s

/-- The `Price` row created for category `i` from one submitted tier. -/
def mkPriceRow (i : Nat) (p : PriceIn) : PriceRow :=
  { categoryId := i, hourlyHours := p.hourlyHours, rateCents := p.rateCents,
    label := normLabel p.label }

/-- The category-field part of a categories PUT body after the handler's
cleaning step (empty strings, nulls and empty objects stripped); `none`
when nothing but prices was submitted.  Its contents are opaque here:
only the validator oracle interprets them. -/
structure CatUpdateData where
  fields : List (String × String)
  deriving DecidableEq, Repr

/-- The validated category-column updates `prisma.hotelCategory.update`
may receive from the categories PUT handler: per spec §3 these are the
category fields (title, description, amenity data, room count, video
URL).  Neither the primary key nor the unique `slug` can appear — this
handler never derives a slug (spec: the slug is derived from the title
by the create/update operations that compute it, which this route does
not do) — so the update cannot throw a unique-constraint error. -/
structure CatFieldsUpd where
  title : Option String
  description : Option String
  specs : Option (List (String × Bool))
  essentialAmenities : Option (List String)
  roomCount : Option Nat
  videoUrl : Option (Option String)
  deriving DecidableEq, Repr

/-- Applies validated update data to a category row (Prisma `update`
with scalar `data`). -/
def applyCatUpd (u : CatFieldsUpd) (c : CategoryRow) : CategoryRow :=
  { c with
      title := u.title.getD c.title,
      description := u.description.getD c.description,
      specs := u.specs.getD c.specs,
      essentialAmenities := u.essentialAmenities.getD c.essentialAmenities,
      roomCount := u.roomCount.getD c.roomCount,
      videoUrl := u.videoUrl.getD c.videoUrl }

/-- Modelled from the spec: `src/lib/validators.ts`
(`categoryUpdateSchema`) is not in the provided sources.  Per spec §4.4
the validation layer turns an untrusted payload into either a normalized
record or a structured failure; the oracle returns the column updates to
apply, or `none` when `parse` throws.  The update cannot touch `Price`
rows: `prisma.hotelCategory.update` only writes category columns (the
body's `prices` key was destructured away before validation). -/
def CatValidator : Type := CatUpdateData → Option CatFieldsUpd

/-- The JSON body of a categories `[id]` PUT. -/
structure CatPutBody where
  prices : Option (List PriceIn)
  categoryData : Option CatUpdateData
  deriving Repr

/-- Result of the categories PUT handler: status, database, effects and
the `{ success: true, data }` payload — the category reloaded with its
images and its prices ordered ascending by `hourlyHours`. -/
structure RoomView where
  category : CategoryRow
  prices : List PriceRow
  images : List ImageRow
  deriving DecidableEq, Repr

/-- Categories PUT result. -/
structure CatPutRes where
  status : Nat
  db : DB
  events : List Ev
  data : Option RoomView
  deriving Repr

/-- The final `tx.hotelCategory.findUnique` of the PUT handler. -/
def loadRoomView (db : DB) (i : Nat) : Option RoomView :=
  (findCat db i).map fun c =>
    { category := c, prices := sortPrices (pricesOf db i), images := imagesOf db i }

/-- The price-replacement step of the categories PUT transaction, then
the final reload.  `evs` are the transaction's earlier effects.
`createMany` violates the `categoryId` foreign key when the category row
is absent, so a nonempty creation on a missing category rolls back and
answers 500 (with an empty `prices.slice(0, 4)` nothing is created and
the transaction commits). -/
def categoriesPutPrices (i : Nat) (b : CatPutBody) (db : DB) (evs : List Ev) : CatPutRes :=
  match b.prices with
  | none => { status := 200, db := db, events := evs, data := loadRoomView db i }
  | some l =>
    let db1 : DB := { db with prices := db.prices.filter (fun r => !(decide (r.categoryId = i))) }
    let lim := l.take 4
    if lim.isEmpty then
      { status := 200, db := db1,
        events := evs ++ [Ev.dbWrite "price.deleteMany"], data := loadRoomView db1 i }
    else if (findCat db1 i).isNone then
      { status := 500, db := db, events := [], data := none }
    else
      let db2 : DB := { db1 with prices := db1.prices ++ lim.map (mkPriceRow i) }
      { status := 200, db := db2,
        events := evs ++ [Ev.dbWrite "price.deleteMany", Ev.dbWrite "price.createMany"],
        data := loadRoomView db2 i }

/-- The `prisma.$transaction` body of the categories PUT handler:
optionally update the category row, then — when a `prices` array was
submitted — `price.deleteMany` for the category followed by
`price.createMany` of `prices.slice(0, 4)`.  A missing category row
makes `update` (or the foreign key of `createMany`) throw, rolling the
whole transaction back; the catch block answers 500. -/
def categoriesPutTx (i : Nat) (b : CatPutBody) (upd : Option CatFieldsUpd)
    (db : DB) : CatPutRes :=
  let catExists := (findCat db i).isSome
  match upd with
  | some u =>
    if !catExists then { status := 500, db := db, events := [], data := none }
    else
      let db1 : DB :=
        { db with
            categories := db.categories.map (fun c => if c.id = i then applyCatUpd u c else c) }
      categoriesPutPrices i b db1 [Ev.dbWrite "hotelCategory.update"]
  | none => categoriesPutPrices i b db []

/-- `PUT /api/admin/categories/[id]`: after `requireAdmin`, split the
body into `prices` and the remaining category fields, validate the
latter when nonempty, then in one transaction update the category row
(if category data was supplied) and — when a `prices` array was supplied
— delete all `Price` rows of the category and recreate the first four
submitted tiers.  A validation failure is caught by the generic handler
(500); a missing row makes the transaction throw and roll back (500). -/
def categoriesPUT (session : Bool) (validate : CatValidator) (i : Nat)
    (b : CatPutBody) (db : DB) : CatPutRes :=
  if !(requireAdminOk session) then
    { status := 401, db := db, events := [], data := none }
  else
    match b.categoryData with
    | some cd =>
      match validate cd with
      | none => { status := 500, db := db, events := [], data := none }
      | some upd => categoriesPutTx i b (some upd) db
    | none => categoriesPutTx i b none db

/-- `DELETE /api/admin/categories/[id]`: after `requireAdmin`, load the
category with images (404 when absent), collect the truthy image
`publicId`s plus the video key matched by `/\/f\/([^/?]+)/`, delete the
category row (cascade removes images and prices), then fire off the
storage deletion WITHOUT awaiting it (`utapi.deleteFiles(...).catch`);
its outcome `storageOk` can influence nothing. -/
def categoriesDELETE (session : Bool) (i : Nat) (storageOk : Bool) (db : DB) : RRes :=
  if !(requireAdminOk session) then { status := 401, db := db, events := [] }
  else
    match findCat db i with
    | none => { status := 404, db := db, events := [] }
    | some cat =>
      let keys :=
        ((imagesOf db i).filter (fun im => !(im.publicId == ""))).map
          (fun im => im.publicId)
          ++ (match cat.videoUrl with
              | none => []
              | some u => if u == "" then [] else (extractVideoKeyCategoryS u).toList)
      let _ := storageOk
      { status := 200, db := cascadeDelete db i,
        events := [Ev.dbDeleteCategory i]
          ++ (if keys.isEmpty then [] else [Ev.storageDelete keys]) }

/-! ## `/api/admin/gallery` and `/api/admin/gallery/[id]` -/

/-- Normalized gallery metadata returned by `galleryImageSchema.parse`. -/
structure GalleryMeta where
  category : String
  caption : Option String
  categoryId : Option Nat
  deriving DecidableEq, Repr

/-- Modelled from the spec: `src/lib/validators.ts` (`galleryImageSchema`)
is not in the provided sources.  Per spec §4.4 it validates the category
label, optional caption and optional owning-category id, producing a
normalized record or throwing; the oracle returns `none` when `parse`
throws (surfaced by the route's generic catch as 500). -/
def GalleryValidator : Type := String → Option String → Option Nat → Option GalleryMeta

/-- JS falsiness of an optional string field (`undefined`, `null` or
`''`). -/
def strFalsy : Option String → Bool
  | none => true
  | some s => s == ""

/-- `caption || undefined` / `categoryId ? … : undefined`: falsy values
are normalized away before validation. -/
def normOptStr (s : Option String) : Option String :=
  if strFalsy s then none else s

/-- 0 is falsy in JS, so a zero category id is dropped before
validation. -/
def normOptNat : Option Nat → Option Nat
  | some 0 => none
  | x => x

/-- An uploaded file in a multipart request: its MIME type and size. -/
structure FileIn where
  ftype : String
  size : Nat
  deriving DecidableEq, Repr

/-- The `{ url, key }` answer of a successful upload. -/
structure UploadRes where
  url : String
  key : String
  deriving DecidableEq, Repr

/-- A gallery POST request: either JSON (file already uploaded) or
multipart form data (file uploaded by the handler itself). -/
inductive GalleryReq where
  | json (category : String) (caption : Option String) (url : Option String)
      (publicId : Option String) (categoryId : Option Nat)
  | form (file : Option FileIn) (category : String) (caption : Option String)
      (categoryId : Option Nat)
  deriving Repr

/-- `POST /api/admin/gallery`.  JSON branch: 400 when `url` or `publicId`
is falsy, validate, create the row.  Multipart branch: 400 when no file;
400 when the MIME type does not start with `image/` (before any upload or
database write); validate; upload via the internal `/api/upload` route —
modelled by the `upload` oracle, `none` meaning the upload failed (500,
nothing persisted) — then create the row from the upload's url/key. -/
def galleryPOST (session : Bool) (validate : GalleryValidator)
    (upload : Option UploadRes) (req : GalleryReq) (db : DB) : RRes :=
  if !(requireAdminOk session) then { status := 401, db := db, events := [] }
  else
    match req with
    | GalleryReq.json category caption url publicId categoryId =>
      if strFalsy url || strFalsy publicId then { status := 400, db := db, events := [] }
      else
        match validate category (normOptStr caption) (normOptNat categoryId) with
        | none => { status := 500, db := db, events := [] }
        | some v =>
          let row : ImageRow :=
            { id := db.nextImgId, category := v.category, url := url.getD "",
              publicId := publicId.getD "", caption := v.caption,
              categoryId := v.categoryId }
          { status := 200,
            db := { db with images := db.images ++ [row], nextImgId := db.nextImgId + 1 },
            events := [Ev.dbWrite "galleryImage.create"] }
    | GalleryReq.form file category caption categoryId =>
      match file with
      | none => { status := 400, db := db, events := [] }
      | some f =>
        if !(strStartsWith f.ftype "image/") then { status := 400, db := db, events := [] }
        else
          match validate category (normOptStr caption) (normOptNat categoryId) with
          | none => { status := 500, db := db, events := [] }
          | some v =>
            match upload with
            | none => { status := 500, db := db, events := [Ev.storageUpload f.ftype] }
            | some res =>
              let row : ImageRow :=
                { id := db.nextImgId, category := v.category, url := res.url,
                  publicId := res.key, caption := v.caption,
                  categoryId := v.categoryId }
              { status := 200,
                db := { db with images := db.images ++ [row], nextImgId := db.nextImgId + 1 },
                events := [Ev.storageUpload f.ftype, Ev.dbWrite "galleryImage.create"] }

/-- The form-data body of a gallery `[id]` PUT. -/
structure GalleryPutBody where
  category : String
  caption : Option String
  categoryId : Option Nat
  url : Option String
  publicId : Option String
  deriving Repr

/-- `PUT /api/admin/gallery/[id]` — `requireAdmin`, load (404), validate,
and when a replacement `url`+`publicId` pair is present: delete the old
storage object first (best-effort, `storageOk` only logged), then update
the row with the new file and metadata; otherwise update metadata only. -/
def galleryPUT (session : Bool) (validate : GalleryValidator) (i : Nat)
    (b : GalleryPutBody) (storageOk : Bool) (db : DB) : RRes :=
  if !(requireAdminOk session) then { status := 401, db := db, events := [] }
  else
    match db.images.find? (fun r => decide (r.id = i)) with
    | none => { status := 404, db := db, events := [] }
    | some row =>
      match validate b.category (normOptStr b.caption) (normOptNat b.categoryId) with
      | none => { status := 500, db := db, events := [] }
      | some v =>
        let replacing := !(strFalsy b.url) && !(strFalsy b.publicId)
        let evs :=
          if replacing && !(row.publicId == "") then [Ev.storageDelete [row.publicId]]
          else []
        let _ := storageOk
        let row' : ImageRow :=
          if replacing then
            { row with category := v.category, caption := v.caption,
                       categoryId := v.categoryId, url := b.url.getD "",
                       publicId := b.publicId.getD "" }
          else
            { row with category := v.category, caption := v.caption,
                       categoryId := v.categoryId }
        { status := 200,
          db := { db with images := db.images.map (fun r => if r.id = i then row' else r) },
          events := evs ++ [Ev.dbWrite "galleryImage.update"] }

/-- `DELETE /api/admin/gallery/[id]` — `requireAdmin`, load (404), delete
the storage object first when a truthy `publicId` exists (best-effort,
`storageOk` only logged), then delete the row unconditionally. -/
def galleryDELETE (session : Bool) (i : Nat) (storageOk : Bool) (db : DB) : RRes :=
  if !(requireAdminOk session) then { status := 401, db := db, events := [] }
  else
    match db.images.find? (fun r => decide (r.id = i)) with
    | none => { status := 404, db := db, events := [] }
    | some row =>
      let evs := if row.publicId == "" then [] else [Ev.storageDelete [row.publicId]]
      let _ := storageOk
      { status := 200,
        db := { db with images := db.images.filter (fun r => !(decide (r.id = i))) },
        events := evs ++ [Ev.dbWrite "galleryImage.delete"] }

/-! ## The client fetch wrapper (`src/lib/api-client.ts`)

`fetchWithTimeout` destructures `timeout = 10000`, `retries = 0`,
`retryDelay = 1000`, sets one abort timer for the whole call, then loops
`attempt = 0 … retries`: a successful `fetch` returns; on an error the
loop rethrows when the error is an `AbortError` or the attempt was the
last one, and otherwise sleeps `retryDelay` and retries.  The `fetch`
calls are an oracle mapping the attempt number to `Except String α`
(the `error` carrying `error.name`); the model returns the final result,
the number of attempts made, and the list of waits slept between
consecutive attempts. -/

/-- Options of the fetch wrapper (`FetchOptions`), `none` = omitted. -/
structure FetchOpts where
  timeout : Option Nat
  retries : Option Nat
  retryDelay : Option Nat
  deriving DecidableEq, Repr

/-- `timeout = 10000` — the value handed to the abort timer. -/
def effectiveTimeout (o : FetchOpts) : Nat := o.timeout.getD 10000

/-- Outcome of one `fetchWithTimeout` call. -/
structure FetchRun (α : Type) where
  result : Except String α
  attempts : Nat
  waits : List Nat
  deriving Repr

/-- The retry loop; `remaining = retries - attempt` counts the attempts
still allowed after the current one (`attempt === retries` iff
`remaining = 0`). -/
def fwtGo {α : Type} (oracle : Nat → Except String α) (retryDelay : Nat) :
    Nat → Nat → FetchRun α
  | remaining, attempt =>
    match oracle attempt with
    | Except.ok r => { result := Except.ok r, attempts := attempt + 1, waits := [] }
    | Except.error name =>
      if name = "AbortError" then
        { result := Except.error name, attempts := attempt + 1, waits := [] }
      else
        match remaining with
        | 0 => { result := Except.error name, attempts := attempt + 1, waits := [] }
        | rem + 1 =>
          let k := fwtGo oracle retryDelay rem (attempt + 1)
          { result := k.result, attempts := k.attempts, waits := retryDelay :: k.waits }

/-- `fetchWithTimeout(url, options)` with the `fetch` calls abstracted
into `oracle`. -/
def fetchWithTimeout {α : Type} (oracle : Nat → Except String α) (o : FetchOpts) :
    FetchRun α :=
  fwtGo oracle (o.retryDelay.getD 1000) (o.retries.getD 0) 0

/-- `true` when the outcome is an error other than an abort — precisely
the outcomes after which the loop retries a non-final attempt. -/
def isRetryableErr {α : Type} : Except String α → Bool
  | Except.error nm => !(nm == "AbortError")
  | Except.ok _ => false

/-! ## Spec-side definitions (refinement counterparts)

These definitions follow the specification's words rather than the
source, for comparison with the source-derived computations above. -/

/-- Written from the spec for the update-cleanup claim: "the set of
storage keys scheduled for deletion is exactly: the keys of existing
child images whose key is absent from the new payload's image list, plus
the old video's extracted key when the stored video URL differs from the
new one (including removal); when the video URL is unchanged, no video
key is scheduled for deletion."  An image row with an empty `publicId`
has no storage key. -/
def specScheduledKeys (b : RoomBody) (cat : CategoryRow) (existingImages : List ImageRow) :
    List String :=
  let newKeys := (b.images.getD []).map (fun im => im.publicId)
  ((existingImages.filter
      (fun im => !(im.publicId == "") && !(newKeys.contains im.publicId))).map
      (fun im => im.publicId))
    ++ (match cat.videoUrl with
        | none => []
        | some u =>
          if some u = firstVideoUrl b.videos then []
          else (extractVideoKeyUpdateS u).toList)

/-- The projection of an image row the image-replacement claim speaks
about: url, storage key and caption. -/
def imageData (r : ImageRow) : String × String × Option String :=
  (r.url, r.publicId, r.caption)

/-- Written from the spec for the image-replacement claim: the row data
expected after an update — one entry per submitted descriptor, in
submission order, captioned `<title> - Image <k>` with `k` counting from
1. -/
def specCaptionedImages (title : String) : Nat → List ImgIn → List (String × String × Option String)
  | _, [] => []
  | k, d :: rest =>
    (d.url, d.publicId, some (title ++ " - Image " ++ toString k))
      :: specCaptionedImages title (k + 1) rest

/-! ## Concrete fixtures -/

/-- The empty database. -/
def db0 : DB := { categories := [], images := [], prices := [], nextCatId := 1, nextImgId := 1 }

/-- The create payload of spec §8 scenario 6. -/
def bodyDeluxe : RoomBody :=
  { id := none, title := "Deluxe Room", description := some "A deluxe room",
    specs := [("wifi", true)], essentialAmenities := some ["AC"], roomCount := some 5,
    images := some [{ url := "u1", publicId := "k1" }], videos := none }

/-- A stored category, id 1, with a video whose URL the delete handler's
patterns can match. -/
def catFix : CategoryRow :=
  { id := 1, slug := "deluxe-room", title := "Deluxe Room", description := "A deluxe room",
    specs := [("wifi", true)], essentialAmenities := ["AC"], roomCount := 5,
    videoUrl := none }

/-- Child image of `catFix` with storage key `k1`. -/
def imgFix : ImageRow :=
  { id := 1, category := "Rooms", url := "u1", publicId := "k1",
    caption := some "Deluxe Room - Image 1", categoryId := some 1 }

/-- A database holding `catFix` with one image and one price row. -/
def dbFix : DB :=
  { categories := [catFix], images := [imgFix],
    prices := [{ categoryId := 1, hourlyHours := 4, rateCents := 9900, label := none }],
    nextCatId := 2, nextImgId := 2 }

/-- A validator oracle that accepts everything unchanged (used by
witnesses; the theorems quantify over all oracles). -/
def idGalleryValidator : GalleryValidator := fun c cap cid =>
  some { category := c, caption := cap, categoryId := cid }

/-- An update payload for category 1 that clears the image list. -/
def bodyClearImages : RoomBody :=
  { id := some 1, title := "Deluxe Room", description := some "A deluxe room",
    specs := [("wifi", true)], essentialAmenities := some ["AC"], roomCount := some 5,
    images := some [], videos := none }

/-- `catFix` with a stored video URL that matches none of the
extraction patterns. -/
def catVid : CategoryRow :=
  { catFix with videoUrl := some "https://example.com/weird" }

/-- A category-data validator oracle that accepts and changes nothing
(used by witnesses; the theorems quantify over all oracles). -/
def idCatValidator : CatValidator := fun _ =>
  some { title := none, description := none, specs := none,
         essentialAmenities := none, roomCount := none, videoUrl := none }

/-- Five submitted price tiers. -/
def fiveTiers : List PriceIn :=
  [ { hourlyHours := 24, rateCents := 19900, label := none },
    { hourlyHours := 2, rateCents := 4900, label := some "Short stay" },
    { hourlyHours := 4, rateCents := 9900, label := none },
    { hourlyHours := 12, rateCents := 14900, label := some "" },
    { hourlyHours := 8, rateCents := 12900, label := none } ]

/-! ## Generic list lemmas -/

/-- Filtering with `p` after keeping only the elements failing `p` gives
nothing. -/
theorem filter_not_filter {α : Type} (p : α → Bool) (l : List α) :
    (l.filter (fun a => !(p a))).filter p = [] := by
  induction l with
  | nil => rfl
  | cons a t ih =>
    cases hpa : p a with
    | true => simp [List.filter_cons, hpa, ih]
    | false => simp [List.filter_cons, hpa, ih]

/-- A list all of whose elements satisfy `p` is unchanged by
`filter p`. -/
theorem filter_of_all {α : Type} (p : α → Bool) :
    ∀ l : List α, (∀ a ∈ l, p a = true) → l.filter p = l := by
  intro l
  induction l with
  | nil => intro _; rfl
  | cons a t ih =>
    intro h
    have ha : p a = true := h a (List.mem_cons_self a t)
    have ht : ∀ b ∈ t, p b = true := fun b hb => h b (List.mem_cons_of_mem a hb)
    simp [List.filter_cons, ha, ih ht]

/-- Membership transfers along `isPrefixOf`. -/
theorem mem_of_isPrefixOf : ∀ {pre l : List Char}, pre.isPrefixOf l = true →
    ∀ {c : Char}, c ∈ pre → c ∈ l := by
  intro pre
  induction pre with
  | nil => intro l _ c hc; cases hc
  | cons a p ih =>
    intro l h c hc
    cases l with
    | nil => exact Bool.noConfusion h
    | cons b t =>
      have h' : (a == b && p.isPrefixOf t) = true := h
      rw [Bool.and_eq_true] at h'
      cases hc with
      | head =>
        rw [eq_of_beq h'.1]
        exact List.mem_cons_self b t
      | tail _ hmem => exact List.mem_cons_of_mem b (ih h'.2 hmem)

/-! ## No pattern matches a slash-free string

Every extraction pattern needs a `/` somewhere, so whitespace-only (and
in particular empty) URLs yield no key.  These lemmas close the only gap
between the handlers' `videoUrl && videoUrl.trim() !== ''` guard and the
spec's plain "the stored video URL differs" condition. -/

/-- `scanKeyAfter` fails on a slash-free string when its literal prefix
contains a slash. -/
theorem scanKeyAfter_no_slash (stop : Char → Bool) (pre : List Char) (hpre : '/' ∈ pre) :
    ∀ l : List Char, '/' ∉ l → scanKeyAfter stop pre l = none := by
  intro l
  induction l with
  | nil => intro _; rfl
  | cons a t ih =>
    intro h
    have ht : '/' ∉ t := fun hm => h (List.mem_cons_of_mem a hm)
    cases hp : pre.isPrefixOf (a :: t) with
    | true => exact absurd (mem_of_isPrefixOf hp hpre) h
    | false => simp [scanKeyAfter, hp, ih ht]

/-- `scanAppKey` fails on a slash-free string. -/
theorem scanAppKey_no_slash : ∀ l : List Char, '/' ∉ l → scanAppKey l = none := by
  intro l
  induction l with
  | nil => intro _; rfl
  | cons a t ih =>
    intro h
    have ht : '/' ∉ t := fun hm => h (List.mem_cons_of_mem a hm)
    cases hp : ('/' :: 'a' :: '/' :: []).isPrefixOf (a :: t) with
    | true => exact absurd (mem_of_isPrefixOf hp (by decide)) h
    | false => simp [scanAppKey, hp, ih ht]

/-- `tailKeyFrom` fails on a slash-free string. -/
theorem tailKeyFrom_no_slash : ∀ l : List Char, '/' ∉ l → tailKeyFrom l = none := by
  intro l
  induction l with
  | nil => intro _; rfl
  | cons a t ih =>
    intro h
    have ha : (a == '/') = false := by
      cases hq : a == '/' with
      | true => exact absurd (by rw [eq_of_beq hq]; exact List.mem_cons_self _ _) h
      | false => rfl
    have ht : '/' ∉ t := fun hm => h (List.mem_cons_of_mem a hm)
    simp [tailKeyFrom, ha, ih ht]

/-- `scanUploadKey` fails on a slash-free string. -/
theorem scanUploadKey_no_slash : ∀ l : List Char, '/' ∉ l → scanUploadKey l = none := by
  intro l
  induction l with
  | nil => intro _; rfl
  | cons a t ih =>
    intro h
    have ht : '/' ∉ t := fun hm => h (List.mem_cons_of_mem a hm)
    have hdrop : tailKeyFrom (t.drop 10) = none :=
      tailKeyFrom_no_slash _ (fun hm => ht (List.drop_subset _ _ hm))
    cases hp :
        ('u' :: 'p' :: 'l' :: 'o' :: 'a' :: 'd' :: 't' :: 'h' :: 'i' :: 'n' :: 'g' :: []).isPrefixOf
          (a :: t) with
    | true => simp [scanUploadKey, hp, hdrop, ih ht]
    | false => simp [scanUploadKey, hp, ih ht]

/-- `scanUtfsKey` fails on a slash-free string. -/
theorem scanUtfsKey_no_slash : ∀ l : List Char, '/' ∉ l → scanUtfsKey l = none := by
  intro l
  induction l with
  | nil => intro _; rfl
  | cons a t ih =>
    intro h
    have ht : '/' ∉ t := fun hm => h (List.mem_cons_of_mem a hm)
    cases hp : ('u' :: 't' :: 'f' :: 's' :: '.' :: 'i' :: 'o' :: '/' :: []).isPrefixOf (a :: t) with
    | true => exact absurd (mem_of_isPrefixOf hp (by decide)) h
    | false => simp [scanUtfsKey, hp, ih ht]

/-- No update-handler pattern matches a slash-free string. -/
theorem extractVideoKeyUpdate_no_slash (l : List Char) (h : '/' ∉ l) :
    extractVideoKeyUpdate l = none := by
  simp [extractVideoKeyUpdate,
    scanKeyAfter_no_slash isSep ('/' :: 'f' :: '/' :: []) (by decide) l h,
    scanAppKey_no_slash l h, scanUploadKey_no_slash l h, scanUtfsKey_no_slash l h]

/-- A blank (possibly empty) stored URL yields no key in the update
handler. -/
theorem extractVideoKeyUpdateS_blank (u : String) (h : isBlank u = true) :
    extractVideoKeyUpdateS u = none := by
  have hs : '/' ∉ u.data := by
    intro hm
    simp only [isBlank, List.all_eq_true] at h
    exact absurd (h '/' hm) (by decide)
  simp [extractVideoKeyUpdateS, extractVideoKeyUpdate_no_slash u.data hs]

/-! ## Slug derivation lemmas -/

/-- Unfolding `noDoubleDash` one step. -/
theorem noDoubleDash_cons (c : Char) (l : List Char) :
    noDoubleDash (c :: l) = (!(c == '-' && headDash l) && noDoubleDash l) := by
  cases l with
  | nil => simp [noDoubleDash, headDash]
  | cons d t => simp [noDoubleDash, headDash]

/-- A slug-alphabet letter or digit is not a dash. -/
theorem ne_dash_of_alnum {c : Char} (hc : isLowerAlnum c = true) : (c == '-') = false := by
  cases hq : c == '-' with
  | true =>
    rw [eq_of_beq hq] at hc
    exact absurd hc (by decide)
  | false => rfl

/-- Every character the collapse step emits is a lowercase alphanumeric
or a dash. -/
theorem collapseRuns_all_good : ∀ (l : List Char) (b : Bool),
    (collapseRuns b l).all (fun c => isLowerAlnum c || c == '-') = true := by
  intro l
  induction l with
  | nil => intro b; rfl
  | cons c t ih =>
    intro b
    cases hc : isLowerAlnum c with
    | true => simp [collapseRuns, hc, ih false]
    | false =>
      cases b with
      | true => simpa [collapseRuns, hc] using ih true
      | false => simp [collapseRuns, hc, ih true]

/-- In run-skipping mode the collapse step never emits a leading dash. -/
theorem collapseRuns_true_headDash : ∀ l : List Char,
    headDash (collapseRuns true l) = false := by
  intro l
  induction l with
  | nil => rfl
  | cons c t ih =>
    cases hc : isLowerAlnum c with
    | true => simp [collapseRuns, hc, headDash, ne_dash_of_alnum hc]
    | false => simpa [collapseRuns, hc] using ih

/-- The collapse step never emits two adjacent dashes. -/
theorem collapseRuns_noDoubleDash : ∀ (l : List Char) (b : Bool),
    noDoubleDash (collapseRuns b l) = true := by
  intro l
  induction l with
  | nil => intro b; rfl
  | cons c t ih =>
    intro b
    cases hc : isLowerAlnum c with
    | true =>
      simp [collapseRuns, hc, noDoubleDash_cons, ne_dash_of_alnum hc, ih false]
    | false =>
      cases b with
      | true => simpa [collapseRuns, hc] using ih true
      | false =>
        simp [collapseRuns, hc, noDoubleDash_cons, collapseRuns_true_headDash t, ih true]

/-- Dropping the leading dash of a dash-collapsed list leaves no leading
dash. -/
theorem headDash_dropLeadingDash (l : List Char) (h : noDoubleDash l = true) :
    headDash (dropLeadingDash l) = false := by
  cases l with
  | nil => rfl
  | cons c t =>
    cases hc : c == '-' with
    | true =>
      rw [noDoubleDash_cons, hc] at h
      simp only [Bool.true_and, Bool.and_eq_true, Bool.not_eq_true'] at h
      simp [dropLeadingDash, hc, h.1]
    | false => simp [dropLeadingDash, hc, headDash]

/-- `dropLastC` keeps the head when it was not a dash. -/
theorem headDash_dropLastC (l : List Char) (h : headDash l = false) :
    headDash (dropLastC l) = false := by
  cases l with
  | nil => rfl
  | cons a t =>
    cases t with
    | nil => rfl
    | cons c t' => simpa [dropLastC, headDash] using h

/-- Dropping a trailing dash keeps the head dash-free. -/
theorem headDash_dropTrailingDash (l : List Char) (h : headDash l = false) :
    headDash (dropTrailingDash l) = false := by
  unfold dropTrailingDash
  cases hl : lastDash l with
  | true => simpa using headDash_dropLastC l h
  | false => simpa using h

/-- `lastDash` of a cons with nonempty tail ignores the head. -/
theorem lastDash_cons (a c : Char) (t : List Char) :
    lastDash (a :: c :: t) = lastDash (c :: t) := rfl

/-- Dropping the last element of a list without adjacent dashes that
ends in a dash leaves a list not ending in a dash. -/
theorem lastDash_dropLastC : ∀ l : List Char, noDoubleDash l = true →
    lastDash l = true → lastDash (dropLastC l) = false := by
  intro l
  induction l with
  | nil => intro _ h2; exact absurd h2 (by decide)
  | cons a t ih =>
    intro h1 h2
    cases t with
    | nil =>
      rfl
    | cons c t' =>
      rw [lastDash_cons] at h2
      rw [noDoubleDash_cons] at h1
      rw [Bool.and_eq_true] at h1
      have ht := ih h1.2 h2
      cases t' with
      | nil =>
        -- l = [a, c] with c = '-'; no-double-dash forces a ≠ '-'
        have hc : (c == '-') = true := h2
        have ha : (a == '-') = false := by
          cases hq : a == '-' with
          | true => rw [hq, headDash, hc] at h1; exact absurd h1.1 (by decide)
          | false => rfl
        simpa [dropLastC, lastDash] using ha
      | cons d t'' =>
        simpa [dropLastC, lastDash_cons] using ht

/-- Dropping a trailing dash really leaves no trailing dash, given no
adjacent dashes. -/
theorem lastDash_dropTrailingDash (l : List Char) (h : noDoubleDash l = true) :
    lastDash (dropTrailingDash l) = false := by
  unfold dropTrailingDash
  cases hl : lastDash l with
  | true => simpa using lastDash_dropLastC l h hl
  | false => simpa using hl

/-- Dropping one leading dash preserves the no-adjacent-dash invariant. -/
theorem noDoubleDash_dropLeadingDash (l : List Char) (h : noDoubleDash l = true) :
    noDoubleDash (dropLeadingDash l) = true := by
  cases l with
  | nil => rfl
  | cons c t =>
    rw [noDoubleDash_cons, Bool.and_eq_true] at h
    cases hc : c == '-' with
    | true => simpa [dropLeadingDash, hc] using h.2
    | false => simpa [dropLeadingDash, hc, noDoubleDash_cons, Bool.and_eq_true] using h

/-- Dropping the last element preserves the no-adjacent-dash invariant. -/
theorem noDoubleDash_dropLastC : ∀ l : List Char, noDoubleDash l = true →
    noDoubleDash (dropLastC l) = true := by
  intro l
  induction l with
  | nil => intro _; rfl
  | cons a t ih =>
    intro h
    cases t with
    | nil => rfl
    | cons c t' =>
      rw [noDoubleDash_cons, Bool.and_eq_true] at h
      have ht := ih h.2
      cases t' with
      | nil => simp [dropLastC, noDoubleDash]
      | cons d t'' =>
        rw [show dropLastC (a :: c :: d :: t'') = a :: dropLastC (c :: d :: t'') from rfl]
        rw [noDoubleDash_cons, Bool.and_eq_true]
        constructor
        · rw [show dropLastC (c :: d :: t'') = c :: dropLastC (d :: t'') from rfl]
          simpa [headDash] using h.1
        · exact ht

/-- Dropping a trailing dash preserves the no-adjacent-dash invariant. -/
theorem noDoubleDash_dropTrailingDash (l : List Char) (h : noDoubleDash l = true) :
    noDoubleDash (dropTrailingDash l) = true := by
  unfold dropTrailingDash
  cases hl : lastDash l with
  | true => simpa using noDoubleDash_dropLastC l h
  | false => simpa using h

/-- Dropping one leading dash preserves the character set. -/
theorem all_dropLeadingDash (p : Char → Bool) (l : List Char) (h : l.all p = true) :
    (dropLeadingDash l).all p = true := by
  cases l with
  | nil => rfl
  | cons c t =>
    rw [List.all_cons, Bool.and_eq_true] at h
    cases hc : c == '-' with
    | true => simpa [dropLeadingDash, hc] using h.2
    | false => simpa [dropLeadingDash, hc, List.all_cons, Bool.and_eq_true] using h

/-- Dropping the last element preserves the character set. -/
theorem all_dropLastC (p : Char → Bool) : ∀ l : List Char, l.all p = true →
    (dropLastC l).all p = true := by
  intro l
  induction l with
  | nil => intro _; rfl
  | cons a t ih =>
    intro h
    rw [List.all_cons, Bool.and_eq_true] at h
    cases t with
    | nil => rfl
    | cons c t' =>
      rw [show dropLastC (a :: c :: t') = a :: dropLastC (c :: t') from rfl]
      rw [List.all_cons, Bool.and_eq_true]
      exact ⟨h.1, ih h.2⟩

/-- Dropping a trailing dash preserves the character set. -/
theorem all_dropTrailingDash (p : Char → Bool) (l : List Char) (h : l.all p = true) :
    (dropTrailingDash l).all p = true := by
  unfold dropTrailingDash
  cases hl : lastDash l with
  | true => simpa using all_dropLastC p l h
  | false => simpa using h

/-- `Char.toLower` fixes the slug alphabet (lowercase letters, digits,
dash). -/
theorem toLower_fix {c : Char} (h : (isLowerAlnum c || c == '-') = true) :
    c.toLower = c := by
  have hn : ¬(c.toNat ≥ 65 ∧ c.toNat ≤ 90) := by
    rw [Bool.or_eq_true] at h
    rcases h with h | h
    · simp only [isLowerAlnum, Bool.or_eq_true, Bool.and_eq_true, decide_eq_true_eq] at h
      omega
    · have := eq_of_beq h
      subst this
      decide
  simp only [Char.toLower]
  rw [if_neg hn]

/-- Lowercasing fixes strings over the slug alphabet. -/
theorem map_toLower_fix : ∀ l : List Char,
    l.all (fun c => isLowerAlnum c || c == '-') = true → l.map Char.toLower = l := by
  intro l
  induction l with
  | nil => intro _; rfl
  | cons c t ih =>
    intro h
    rw [List.all_cons, Bool.and_eq_true] at h
    simp [toLower_fix h.1, ih h.2]

/-- The collapse step fixes strings over the slug alphabet without
adjacent dashes (in skip mode additionally requiring no leading dash). -/
theorem collapseRuns_fix : ∀ l : List Char,
    l.all (fun c => isLowerAlnum c || c == '-') = true → noDoubleDash l = true →
    (collapseRuns false l = l ∧ (headDash l = false → collapseRuns true l = l)) := by
  intro l
  induction l with
  | nil => intro _ _; exact ⟨rfl, fun _ => rfl⟩
  | cons c t ih =>
    intro hg hn
    rw [List.all_cons, Bool.and_eq_true] at hg
    rw [noDoubleDash_cons, Bool.and_eq_true] at hn
    have iht := ih hg.2 hn.2
    cases hc : isLowerAlnum c with
    | true =>
      constructor
      · simp [collapseRuns, hc, iht.1]
      · intro _; simp [collapseRuns, hc, iht.1]
    | false =>
      have hdash : (c == '-') = true := by
        have := hg.1
        rw [Bool.or_eq_true, hc] at this
        simpa using this
      have hcd : c = '-' := eq_of_beq hdash
      have hht : headDash t = false := by
        have := hn.1
        rw [hdash, Bool.true_and] at this
        simpa [Bool.not_eq_true'] using this
      constructor
      · subst hcd
        simp [collapseRuns, hc, iht.2 hht]
      · intro hh
        rw [headDash, hdash] at hh
        exact absurd hh (by decide)

/-- A list without a leading dash is unchanged by `dropLeadingDash`. -/
theorem dropLeadingDash_fix (l : List Char) (h : headDash l = false) :
    dropLeadingDash l = l := by
  cases l with
  | nil => rfl
  | cons c t =>
    rw [headDash] at h
    simp [dropLeadingDash, h]

/-- A list without a trailing dash is unchanged by `dropTrailingDash`. -/
theorem dropTrailingDash_fix (l : List Char) (h : lastDash l = false) :
    dropTrailingDash l = l := by
  unfold dropTrailingDash
  simp [h]

/-- The four normal-form invariants of a derived slug: slug alphabet,
no adjacent dashes, no leading dash, no trailing dash. -/
theorem slugChars_good (l : List Char) :
    (slugChars l).all (fun c => isLowerAlnum c || c == '-') = true
    ∧ noDoubleDash (slugChars l) = true
    ∧ headDash (slugChars l) = false
    ∧ lastDash (slugChars l) = false := by
  unfold slugChars
  refine ⟨?_, ?_, ?_, ?_⟩
  · exact all_dropTrailingDash _ _ (all_dropLeadingDash _ _ (collapseRuns_all_good _ false))
  · exact noDoubleDash_dropTrailingDash _
      (noDoubleDash_dropLeadingDash _ (collapseRuns_noDoubleDash _ false))
  · exact headDash_dropTrailingDash _
      (headDash_dropLeadingDash _ (collapseRuns_noDoubleDash _ false))
  · exact lastDash_dropTrailingDash _
      (noDoubleDash_dropLeadingDash _ (collapseRuns_noDoubleDash _ false))

/-- Slug derivation is idempotent on character lists. -/
theorem slugChars_idem (l : List Char) : slugChars (slugChars l) = slugChars l := by
  obtain ⟨hg, hn, hh, ht⟩ := slugChars_good l
  conv_lhs => rw [slugChars]
  rw [map_toLower_fix _ hg, (collapseRuns_fix _ hg hn).1, dropLeadingDash_fix _ hh,
    dropTrailingDash_fix _ ht]

/-! ## Insertion-sort lemmas for the price ordering -/

/-- Insertion produces a permutation. -/
theorem insortPrice_perm (p : PriceRow) : ∀ l, List.Perm (insortPrice p l) (p :: l) := by
  intro l
  induction l with
  | nil => exact List.Perm.refl _
  | cons q qs ih =>
    by_cases h : p.hourlyHours ≤ q.hourlyHours
    · simp [insortPrice, h]
    · simp only [insortPrice, if_neg h]
      exact List.Perm.trans (List.Perm.cons q ih) (List.Perm.swap p q qs)

/-- Insertion preserves sortedness by `hourlyHours`. -/
theorem insortPrice_sorted (p : PriceRow) :
    ∀ l, List.Sorted (fun a b : PriceRow => a.hourlyHours ≤ b.hourlyHours) l →
      List.Sorted (fun a b : PriceRow => a.hourlyHours ≤ b.hourlyHours) (insortPrice p l) := by
  intro l
  induction l with
  | nil => intro _; simp [insortPrice]
  | cons q qs ih =>
    intro hs
    rw [List.sorted_cons] at hs
    by_cases h : p.hourlyHours ≤ q.hourlyHours
    · simp only [insortPrice, if_pos h]
      rw [List.sorted_cons]
      refine ⟨?_, ?_⟩
      · intro b hb
        rcases List.mem_cons.mp hb with hb | hb
        · exact hb ▸ h
        · exact le_trans h (hs.1 b hb)
      · rw [List.sorted_cons]
        exact hs
    · simp only [insortPrice, if_neg h]
      rw [List.sorted_cons]
      refine ⟨?_, ih hs.2⟩
      intro b hb
      have hb' : b ∈ p :: qs := (insortPrice_perm p qs).mem_iff.mp hb
      rcases List.mem_cons.mp hb' with hb' | hb'
      · exact hb' ▸ le_of_not_le h
      · exact hs.1 b hb'

/-- `sortPrices` permutes its input. -/
theorem sortPrices_perm : ∀ l, List.Perm (sortPrices l) l := by
  intro l
  induction l with
  | nil => exact List.Perm.refl _
  | cons p ps ih =>
    exact List.Perm.trans (insortPrice_perm p (sortPrices ps)) (List.Perm.cons p ih)

/-- `sortPrices` sorts ascending by `hourlyHours`. -/
theorem sortPrices_sorted : ∀ l,
    List.Sorted (fun a b : PriceRow => a.hourlyHours ≤ b.hourlyHours) (sortPrices l) := by
  intro l
  induction l with
  | nil => simp [sortPrices]
  | cons p ps ih => exact insortPrice_sorted p (sortPrices ps) ih

/-! ## Fetch-loop lemmas -/

/-- One-step unfolding of the retry loop at `remaining = 0`. -/
theorem fwtGo_zero {α : Type} (oracle : Nat → Except String α) (d att : Nat) :
    fwtGo oracle d 0 att =
      match oracle att with
      | Except.ok r => { result := Except.ok r, attempts := att + 1, waits := [] }
      | Except.error name =>
        if name = "AbortError" then
          { result := Except.error name, attempts := att + 1, waits := [] }
        else
          { result := Except.error name, attempts := att + 1, waits := [] } := by
  conv_lhs => rw [fwtGo]

/-- One-step unfolding of the retry loop at `remaining = rem + 1`. -/
theorem fwtGo_succ {α : Type} (oracle : Nat → Except String α) (d rem att : Nat) :
    fwtGo oracle d (rem + 1) att =
      match oracle att with
      | Except.ok r => { result := Except.ok r, attempts := att + 1, waits := [] }
      | Except.error name =>
        if name = "AbortError" then
          { result := Except.error name, attempts := att + 1, waits := [] }
        else
          { result := (fwtGo oracle d rem (att + 1)).result,
            attempts := (fwtGo oracle d rem (att + 1)).attempts,
            waits := d :: (fwtGo oracle d rem (att + 1)).waits } := by
  conv_lhs => rw [fwtGo]

/-- Full characterization of the retry loop: attempt count bounds, the
fixed waits, the propagated result, retried attempts being non-abort
errors, and the only three reasons to stop (success, abort,
exhaustion). -/
theorem fwtGo_spec {α : Type} (oracle : Nat → Except String α) (d : Nat) :
    ∀ rem att : Nat,
      (att + 1 ≤ (fwtGo oracle d rem att).attempts
        ∧ (fwtGo oracle d rem att).attempts ≤ att + rem + 1)
      ∧ (fwtGo oracle d rem att).waits
          = List.replicate ((fwtGo oracle d rem att).attempts - att - 1) d
      ∧ (fwtGo oracle d rem att).result = oracle ((fwtGo oracle d rem att).attempts - 1)
      ∧ (∀ k, att ≤ k → k + 1 < (fwtGo oracle d rem att).attempts →
          isRetryableErr (oracle k) = true)
      ∧ ((∃ r, oracle ((fwtGo oracle d rem att).attempts - 1) = Except.ok r)
          ∨ oracle ((fwtGo oracle d rem att).attempts - 1) = Except.error "AbortError"
          ∨ (fwtGo oracle d rem att).attempts = att + rem + 1) := by
  intro rem
  induction rem with
  | zero =>
    intro att
    cases ho : oracle att with
    | ok r =>
      rw [fwtGo_zero, ho]
      dsimp only
      refine ⟨⟨le_refl _, by omega⟩, ?_, ?_, ?_, ?_⟩
      · rw [show att + 1 - att - 1 = 0 from by omega]
        rfl
      · rw [show att + 1 - 1 = att from by omega, ho]
      · intro k hk1 hk2
        omega
      · exact Or.inl ⟨r, by rw [show att + 1 - 1 = att from by omega, ho]⟩
    | error name =>
      by_cases hn : name = "AbortError"
      · rw [fwtGo_zero, ho]
        dsimp only
        rw [if_pos hn]
        dsimp only
        refine ⟨⟨le_refl _, by omega⟩, ?_, ?_, ?_, ?_⟩
        · rw [show att + 1 - att - 1 = 0 from by omega]
          rfl
        · rw [show att + 1 - 1 = att from by omega, ho]
        · intro k hk1 hk2
          omega
        · exact Or.inr (Or.inl (by rw [show att + 1 - 1 = att from by omega, ho, hn]))
      · rw [fwtGo_zero, ho]
        dsimp only
        rw [if_neg hn]
        dsimp only
        refine ⟨⟨le_refl _, by omega⟩, ?_, ?_, ?_, ?_⟩
        · rw [show att + 1 - att - 1 = 0 from by omega]
          rfl
        · rw [show att + 1 - 1 = att from by omega, ho]
        · intro k hk1 hk2
          omega
        · exact Or.inr (Or.inr rfl)
  | succ rem ih =>
    intro att
    cases ho : oracle att with
    | ok r =>
      rw [fwtGo_succ, ho]
      dsimp only
      refine ⟨⟨le_refl _, by omega⟩, ?_, ?_, ?_, ?_⟩
      · rw [show att + 1 - att - 1 = 0 from by omega]
        rfl
      · rw [show att + 1 - 1 = att from by omega, ho]
      · intro k hk1 hk2
        omega
      · exact Or.inl ⟨r, by rw [show att + 1 - 1 = att from by omega, ho]⟩
    | error name =>
      by_cases hn : name = "AbortError"
      · rw [fwtGo_succ, ho]
        dsimp only
        rw [if_pos hn]
        dsimp only
        refine ⟨⟨le_refl _, by omega⟩, ?_, ?_, ?_, ?_⟩
        · rw [show att + 1 - att - 1 = 0 from by omega]
          rfl
        · rw [show att + 1 - 1 = att from by omega, ho]
        · intro k hk1 hk2
          omega
        · exact Or.inr (Or.inl (by rw [show att + 1 - 1 = att from by omega, ho, hn]))
      · rw [fwtGo_succ, ho]
        dsimp only
        rw [if_neg hn]
        dsimp only
        obtain ⟨⟨hb1, hb2⟩, hw, hr, hretry, hstop⟩ := ih (att + 1)
        refine ⟨⟨by omega, by omega⟩, ?_, ?_, ?_, ?_⟩
        · rw [hw, show (fwtGo oracle d rem (att + 1)).attempts - att - 1
              = ((fwtGo oracle d rem (att + 1)).attempts - (att + 1) - 1) + 1 from by omega,
            List.replicate_succ]
        · exact hr
        · intro k hk1 hk2
          by_cases hk : k = att
          · subst hk
            rw [ho]
            simp [isRetryableErr, hn]
          · exact hretry k (by omega) hk2
        · rcases hstop with h | h | h
          · exact Or.inl h
          · exact Or.inr (Or.inl h)
          · exact Or.inr (Or.inr (by omega))

/-! ## Claim theorems -/

/-- **C7**: Slug derivation is a pure function of the title: for every
title string, the derived slug contains only lowercase alphanumerics and
single `-` separators (no adjacent dashes), has no leading or trailing
separator, and applying the derivation to its own output returns it
unchanged (idempotent). -/
theorem claim_C7_slug_normal_form_idempotent : ∀ t : String,
    (slugify t).data.all (fun c => isLowerAlnum c || c == '-') = true
    ∧ noDoubleDash (slugify t).data = true
    ∧ headDash (slugify t).data = false
    ∧ lastDash (slugify t).data = false
    ∧ slugify (slugify t) = slugify t := by
  intro t
  have h := slugChars_good t.data
  have hd : (slugify t).data = slugChars t.data := rfl
  refine ⟨?_, ?_, ?_, ?_, ?_⟩
  · rw [hd]
    exact h.1
  · rw [hd]
    exact h.2.1
  · rw [hd]
    exact h.2.2.1
  · rw [hd]
    exact h.2.2.2
  · show (⟨slugChars (slugify t).data⟩ : String) = ⟨slugChars t.data⟩
    rw [hd, slugChars_idem]

/-- **C3 (counterexample)**: the claim expects the key `ABC123` from
`https://host/x/y/ABC123?q=1` (both handlers) and from
`https://host/a/app1/ABC123` (delete handler); both extractions in fact
yield no key. -/
theorem claim_C3_counterexample :
    extractVideoKeyUpdateS "https://host/x/y/ABC123?q=1" = none
    ∧ extractVideoKeyDeleteS "https://host/x/y/ABC123?q=1" = none
    ∧ extractVideoKeyDeleteS "https://host/a/app1/ABC123" = none := by
  refine ⟨?_, ?_, ?_⟩ <;> decide

/-- **C3 (amended)**: `https://host/f/ABC123` yields `ABC123` under both
handlers' extractors; `https://host/a/app1/ABC123` yields `ABC123` under
the update handler's extractor but no key under the delete handler's;
`https://host/x/y/ABC123?q=1` yields no key under either; and whenever
extraction yields no key, the computed deletion key sets contain no
video key (cleanup is skipped) and nothing fails. -/
theorem claim_C3_amended :
    extractVideoKeyUpdateS "https://host/f/ABC123" = some "ABC123"
    ∧ extractVideoKeyDeleteS "https://host/f/ABC123" = some "ABC123"
    ∧ extractVideoKeyUpdateS "https://host/a/app1/ABC123" = some "ABC123"
    ∧ extractVideoKeyDeleteS "https://host/a/app1/ABC123" = none
    ∧ extractVideoKeyUpdateS "https://host/x/y/ABC123?q=1" = none
    ∧ extractVideoKeyDeleteS "https://host/x/y/ABC123?q=1" = none
    ∧ (∀ (b : RoomBody) (cat : CategoryRow) (imgs : List ImageRow) (u : String),
        cat.videoUrl = some u → extractVideoKeyUpdateS u = none →
        fileKeysToDelete b cat imgs
          = (imgs.filter (fun im => !(im.publicId == "")
              && !(((b.images.getD []).map (fun im => im.publicId)).contains im.publicId))).map
              (fun im => im.publicId))
    ∧ (∀ (cat : CategoryRow) (imgs : List ImageRow) (u : String),
        cat.videoUrl = some u → extractVideoKeyDeleteS u = none →
        roomsDeleteKeys cat imgs
          = (imgs.filter (fun im => !(im.publicId == ""))).map (fun im => im.publicId)) := by
  refine ⟨by decide, by decide, by decide, by decide, by decide, by decide, ?_, ?_⟩
  · intro b cat imgs u hv hnone
    simp [fileKeysToDelete, hv, hnone]
  · intro cat imgs u hv hnone
    simp [roomsDeleteKeys, hv, hnone]

/-- Witness for C3: a concrete category whose stored video URL matches
no pattern; the update-cleanup key list is exactly the image part. -/
theorem claim_C3_witness :
    (catVid.videoUrl = some "https://example.com/weird"
      ∧ extractVideoKeyUpdateS "https://example.com/weird" = none)
    ∧ fileKeysToDelete bodyClearImages catVid [imgFix]
        = ([imgFix].filter (fun im => !(im.publicId == "")
            && !(((bodyClearImages.images.getD []).map
                  (fun im => im.publicId)).contains im.publicId))).map
            (fun im => im.publicId) :=
  ⟨⟨by decide, by decide⟩,
    claim_C3_amended.2.2.2.2.2.2.1 bodyClearImages catVid [imgFix]
      "https://example.com/weird" (by decide) (by decide)⟩

/-- **C1**: every guarded admin mutation (categories PUT/DELETE, gallery
POST/PUT/DELETE) answers 401 with an untouched database and no side
effect when the session is invalid — but the rooms handlers
(`src/unnamed/part_001`) never check the session: an unauthenticated
rooms POST creates the category row and answers 201, contradicting the
claim.  (Evaluation of the code at the failing input.) -/
theorem claim_C1_unauthorized_behaviour :
    (∀ (v : CatValidator) (i : Nat) (b : CatPutBody) (db : DB),
      categoriesPUT false v i b db = { status := 401, db := db, events := [], data := none })
    ∧ (∀ (i : Nat) (ok : Bool) (db : DB),
      categoriesDELETE false i ok db = { status := 401, db := db, events := [] })
    ∧ (∀ (v : GalleryValidator) (up : Option UploadRes) (req : GalleryReq) (db : DB),
      galleryPOST false v up req db = { status := 401, db := db, events := [] })
    ∧ (∀ (v : GalleryValidator) (i : Nat) (b : GalleryPutBody) (ok : Bool) (db : DB),
      galleryPUT false v i b ok db = { status := 401, db := db, events := [] })
    ∧ (∀ (i : Nat) (ok : Bool) (db : DB),
      galleryDELETE false i ok db = { status := 401, db := db, events := [] })
    ∧ (roomsPOST false bodyDeluxe db0).status = 201
    ∧ (roomsPOST false bodyDeluxe db0).db.categories.length = db0.categories.length + 1 := by
  refine ⟨fun v i b db => rfl, fun i ok db => rfl, fun v up req db => rfl,
    fun v i b ok db => rfl, fun i ok db => rfl, by decide, by decide⟩

/-- **C2 (counterexample)**: on a database holding category 1 with one
image (key `k1`), the rooms DELETE handler issues the storage deletion
BEFORE deleting the category row — the claim's "database first, only
then storage" ordering is violated. -/
theorem claim_C2_counterexample :
    (roomsDELETE true (some 1) true dbFix).events
        = [Ev.storageDelete ["k1"], Ev.dbDeleteCategory 1]
    ∧ storageOnlyAfterDbDelete (roomsDELETE true (some 1) true dbFix).events = false := by
  refine ⟨?_, ?_⟩ <;> decide

/-- **C2 (amended)**: for every existing category id, the categories
`[id]` DELETE handler removes the category row (with its Price and
Image rows, by cascade) from the database first and only then schedules
storage deletion, while the rooms DELETE handler attempts storage
deletion first and then deletes the row; in both handlers the response
is 200 and the database reaches the cascade-deleted state, completely
independent of the storage-deletion outcome. -/
theorem claim_C2_amended : ∀ (db : DB) (i : Nat) (cat : CategoryRow) (ok ok' : Bool),
    findCat db i = some cat →
    ((categoriesDELETE true i ok db).status = 200
      ∧ (categoriesDELETE true i ok db).db = cascadeDelete db i
      ∧ storageOnlyAfterDbDelete (categoriesDELETE true i ok db).events = true
      ∧ categoriesDELETE true i ok db = categoriesDELETE true i ok' db)
    ∧ ((roomsDELETE true (some i) ok db).status = 200
      ∧ (roomsDELETE true (some i) ok db).db = cascadeDelete db i
      ∧ (roomsDELETE true (some i) ok db).events
          = (if (roomsDeleteKeys cat (imagesOf db i)).isEmpty then []
             else [Ev.storageDelete (roomsDeleteKeys cat (imagesOf db i))])
            ++ [Ev.dbDeleteCategory i]
      ∧ roomsDELETE true (some i) ok db = roomsDELETE true (some i) ok' db) := by
  intro db i cat ok ok' hcat
  constructor
  · refine ⟨?_, ?_, ?_, ?_⟩ <;>
      simp [categoriesDELETE, requireAdminOk, hcat, storageOnlyAfterDbDelete]
  · refine ⟨?_, ?_, ?_, ?_⟩ <;> simp [roomsDELETE, hcat]

/-- Witness for C2: category 1 of `dbFix` exists; the categories DELETE
on it answers 200. -/
theorem claim_C2_witness :
    findCat dbFix 1 = some catFix ∧ (categoriesDELETE true 1 true dbFix).status = 200 :=
  ⟨by decide, (claim_C2_amended dbFix 1 catFix true false (by decide)).1.1⟩

/-- **C10**: a multipart gallery create whose file's MIME type does not
start with `image/` fails with 400 and performs no upload and no
database write (for any validator and upload oracle, any metadata, any
database). -/
theorem claim_C10_gallery_rejects_non_image :
    ∀ (v : GalleryValidator) (up : Option UploadRes) (f : FileIn)
      (category : String) (caption : Option String) (categoryId : Option Nat) (db : DB),
      strStartsWith f.ftype "image/" = false →
      (galleryPOST true v up (GalleryReq.form (some f) category caption categoryId) db).status
          = 400
      ∧ (galleryPOST true v up (GalleryReq.form (some f) category caption categoryId) db).db
          = db
      ∧ (galleryPOST true v up (GalleryReq.form (some f) category caption categoryId) db).events
          = [] := by
  intro v up f category caption categoryId db hf
  refine ⟨?_, ?_, ?_⟩ <;> simp [galleryPOST, requireAdminOk, hf]

/-- Witness for C10: a concrete `video/mp4` multipart request is
rejected with 400. -/
theorem claim_C10_witness :
    strStartsWith "video/mp4" "image/" = false
    ∧ (galleryPOST true idGalleryValidator none
        (GalleryReq.form (some { ftype := "video/mp4", size := 100 }) "Rooms" none none)
        dbFix).status = 400 :=
  ⟨by decide,
    (claim_C10_gallery_rejects_non_image idGalleryValidator none
      { ftype := "video/mp4", size := 100 } "Rooms" none none dbFix (by decide)).1⟩

/-- **C9**: a categories PUT whose body carries no `prices` array leaves
the `Price` table exactly as it was — for any session, validator,
category id, body and database. -/
theorem claim_C9_priceless_update_preserves_prices :
    ∀ (s : Bool) (v : CatValidator) (i : Nat) (b : CatPutBody) (db : DB),
      b.prices = none → (categoriesPUT s v i b db).db.prices = db.prices := by
  intro s v i b db hp
  cases s with
  | false => rfl
  | true =>
    simp only [categoriesPUT, requireAdminOk]
    cases hcd : b.categoryData with
    | none => simp [categoriesPutTx, categoriesPutPrices, hp]
    | some cd =>
      cases hv : v cd with
      | none => simp [hv]
      | some u =>
        by_cases hc : (findCat db i).isSome
        · simp [categoriesPutTx, categoriesPutPrices, hp, hc, hv]
        · simp [categoriesPutTx, categoriesPutPrices, hc, hv]

/-- Witness for C9: a price-less body against `dbFix` leaves its single
price row in place. -/
theorem claim_C9_witness :
    ({ prices := none, categoryData := none } : CatPutBody).prices = none
    ∧ (categoriesPUT true idCatValidator 1
        { prices := none, categoryData := none } dbFix).db.prices = dbFix.prices :=
  ⟨rfl, claim_C9_priceless_update_preserves_prices true idCatValidator 1
    { prices := none, categoryData := none } dbFix rfl⟩

/-! ## Rooms-PUT helper lemmas -/

/-- `scheduledKeys` unfolding lemmas. -/
theorem scheduledKeys_nil : scheduledKeys [] = [] := rfl

/-- Storage-deletion events contribute their keys. -/
theorem scheduledKeys_storage_cons (ks : List String) (t : List Ev) :
    scheduledKeys (Ev.storageDelete ks :: t) = ks ++ scheduledKeys t := rfl

/-- Database writes contribute no storage keys. -/
theorem scheduledKeys_dbWrite_cons (s : String) (t : List Ev) :
    scheduledKeys (Ev.dbWrite s :: t) = scheduledKeys t := rfl

/-- The key list scheduled by a conditional storage-deletion event
followed by key-free events. -/
theorem scheduledKeys_storage_tail (keys : List String) (tail : List Ev)
    (h : scheduledKeys tail = []) :
    scheduledKeys ((if keys.isEmpty then [] else [Ev.storageDelete keys]) ++ tail) = keys := by
  cases hk : keys.isEmpty with
  | true =>
    have hnil : keys = [] := by
      cases keys with
      | nil => rfl
      | cons a t => exact Bool.noConfusion hk
    simp [hnil, h]
  | false => simp [scheduledKeys_storage_cons, h]

/-- Every image row created by `buildImages` belongs to the category. -/
theorem buildImages_catId (title : String) (cid : Nat) : ∀ (l : List ImgIn) (nid k : Nat),
    ∀ r ∈ buildImages title cid nid k l, r.categoryId = some cid := by
  intro l
  induction l with
  | nil => intro nid k r hr; cases hr
  | cons d rest ih =>
    intro nid k r hr
    rcases List.mem_cons.mp hr with hr | hr
    · rw [hr]
    · exact ih (nid + 1) (k + 1) r hr

/-- `buildImages` creates one row per descriptor. -/
theorem buildImages_length (title : String) (cid : Nat) : ∀ (l : List ImgIn) (nid k : Nat),
    (buildImages title cid nid k l).length = l.length := by
  intro l
  induction l with
  | nil => intro nid k; rfl
  | cons d rest ih =>
    intro nid k
    simp [buildImages, ih (nid + 1) (k + 1)]

/-- The created rows carry exactly the submitted url/key pairs with the
`<title> - Image <k>` captions, in submission order. -/
theorem buildImages_map_imageData (title : String) (cid : Nat) :
    ∀ (l : List ImgIn) (nid k : Nat),
      (buildImages title cid nid k l).map imageData = specCaptionedImages title (k + 1) l := by
  intro l
  induction l with
  | nil => intro nid k; rfl
  | cons d rest ih =>
    intro nid k
    simp [buildImages, specCaptionedImages, imageData, ih (nid + 1) (k + 1)]

/-- The code's video-deletion guard (`videoUrl && videoUrl.trim() !== ''`)
agrees with the spec's plain "URL differs" condition, because blank URLs
yield no key anyway. -/
theorem videoKeys_guard_eq (u : String) (newV : Option String) :
    (if !(u == "") && !(isBlank u) then
      if some u = newV then [] else (extractVideoKeyUpdateS u).toList
     else [])
    = (if some u = newV then [] else (extractVideoKeyUpdateS u).toList) := by
  by_cases hb : isBlank u = true
  · have hnone := extractVideoKeyUpdateS_blank u hb
    simp [hb, hnone]
  · have hb' : isBlank u = false := by
      cases hq : isBlank u with
      | true => exact absurd hq hb
      | false => rfl
    have hne : (u == "") = false := by
      cases hq : u == "" with
      | true =>
        have : u = "" := eq_of_beq hq
        subst this
        exact absurd rfl hb
      | false => rfl
    simp [hne, hb']

/-- The update handler's `fileKeysToDelete` computes exactly the
spec-side scheduled-key set. -/
theorem fileKeysToDelete_eq_spec (b : RoomBody) (cat : CategoryRow) (imgs : List ImageRow) :
    fileKeysToDelete b cat imgs = specScheduledKeys b cat imgs := by
  unfold fileKeysToDelete specScheduledKeys
  dsimp only
  congr 1
  cases hv : cat.videoUrl with
  | none => rfl
  | some u => exact videoKeys_guard_eq u (firstVideoUrl b.videos)

/-- The storage keys scheduled by the rooms PUT handler are its
`fileKeysToDelete`, whether or not the final row update succeeds. -/
theorem roomsPUT_scheduled (db : DB) (b : RoomBody) (i : Nat) (cat : CategoryRow)
    (hid : b.id = some i) (hi0 : i ≠ 0) (hcat : findCat db i = some cat) :
    scheduledKeys (roomsPUT true b db).events = fileKeysToDelete b cat (imagesOf db i) := by
  unfold roomsPUT
  rw [hid]
  dsimp only
  rw [if_neg hi0, hcat]
  dsimp only
  by_cases hconf :
      db.categories.any (fun c => !(c.id == i) && c.slug == slugify b.title) = true
  · rw [if_pos hconf]
    exact scheduledKeys_storage_tail _ _ rfl
  · rw [if_neg hconf]
    exact scheduledKeys_storage_tail _ _ rfl

/-- **C4**: for every category update, the storage keys scheduled for
deletion are exactly the keys of existing child images absent from the
new payload (empty keys having no storage object), plus the old video's
extracted key when the stored video URL differs from the incoming one
(including removal); when the video URL is unchanged, only image keys
are scheduled. -/
theorem claim_C4_update_cleanup_keys :
    ∀ (db : DB) (b : RoomBody) (i : Nat) (cat : CategoryRow),
      b.id = some i → i ≠ 0 → findCat db i = some cat →
      scheduledKeys (roomsPUT true b db).events = specScheduledKeys b cat (imagesOf db i)
      ∧ (cat.videoUrl = firstVideoUrl b.videos →
          scheduledKeys (roomsPUT true b db).events
            = ((imagesOf db i).filter (fun im => !(im.publicId == "")
                && !(((b.images.getD []).map (fun im => im.publicId)).contains
                      im.publicId))).map (fun im => im.publicId)) := by
  intro db b i cat hid hi0 hcat
  have h1 := roomsPUT_scheduled db b i cat hid hi0 hcat
  have h2 := fileKeysToDelete_eq_spec b cat (imagesOf db i)
  constructor
  · rw [h1, h2]
  · intro hsame
    rw [h1, h2]
    cases hv : cat.videoUrl with
    | none =>
      rw [hv] at hsame
      simp [specScheduledKeys, hv]
    | some u =>
      rw [hv] at hsame
      simp [specScheduledKeys, hv, ← hsame]

/-- Witness for C4: updating `dbFix`'s category 1 to an empty image list
schedules exactly `k1`. -/
theorem claim_C4_witness :
    (bodyClearImages.id = some 1 ∧ findCat dbFix 1 = some catFix)
    ∧ scheduledKeys (roomsPUT true bodyClearImages dbFix).events
        = specScheduledKeys bodyClearImages catFix (imagesOf dbFix 1) :=
  ⟨⟨by decide, by decide⟩,
    (claim_C4_update_cleanup_keys dbFix bodyClearImages 1 catFix (by decide) (by decide)
      (by decide)).1⟩

/-- **C5**: a successful category update leaves exactly one image row
per submitted descriptor attached to the category — never more than the
submitted count, including zero — built from the new list in submission
order with captions `<title> - Image <k>`. -/
theorem claim_C5_update_image_replacement :
    ∀ (db : DB) (b : RoomBody) (i : Nat) (cat : CategoryRow),
      b.id = some i → i ≠ 0 → findCat db i = some cat →
      db.categories.any (fun c => !(c.id == i) && c.slug == slugify b.title) = false →
      (roomsPUT true b db).status = 200
      ∧ (imagesOf (roomsPUT true b db).db i).length = (b.images.getD []).length
      ∧ (imagesOf (roomsPUT true b db).db i).map imageData
          = specCaptionedImages b.title 1 (b.images.getD []) := by
  intro db b i cat hid hi0 hcat hconf
  have hconf' :
      ¬ (db.categories.any (fun c => !(c.id == i) && c.slug == slugify b.title) = true) := by
    rw [hconf]
    exact Bool.false_ne_true
  have himgs : imagesOf (roomsPUT true b db).db i
      = buildImages b.title i db.nextImgId 0 (b.images.getD []) := by
    unfold roomsPUT
    rw [hid]
    dsimp only
    rw [if_neg hi0, hcat]
    dsimp only
    rw [if_neg hconf']
    unfold imagesOf
    dsimp only
    rw [List.filter_append, filter_not_filter, List.nil_append]
    exact filter_of_all _ _
      (fun r hr => decide_eq_true (buildImages_catId b.title i (b.images.getD []) _ _ r hr))
  refine ⟨?_, ?_, ?_⟩
  · unfold roomsPUT
    rw [hid]
    dsimp only
    rw [if_neg hi0, hcat]
    dsimp only
    rw [if_neg hconf']
  · rw [himgs, buildImages_length]
  · rw [himgs]
    simpa using buildImages_map_imageData b.title i (b.images.getD []) db.nextImgId 0

/-- Witness for C5: clearing the images of `dbFix`'s category 1 leaves
zero image rows. -/
theorem claim_C5_witness :
    (bodyClearImages.id = some 1 ∧ findCat dbFix 1 = some catFix
      ∧ dbFix.categories.any
          (fun c => !(c.id == 1) && c.slug == slugify bodyClearImages.title) = false)
    ∧ (imagesOf (roomsPUT true bodyClearImages dbFix).db 1).length
        = (bodyClearImages.images.getD []).length :=
  ⟨⟨by decide, by decide, by decide⟩,
    (claim_C5_update_image_replacement dbFix bodyClearImages 1 catFix (by decide) (by decide)
      (by decide) (by decide)).2.1⟩


/-- Applying validated column updates to one row preserves lookups by
id (the update never writes the primary key). -/
theorem findCat_map_upd (u : CatFieldsUpd) (i : Nat) : ∀ cats : List CategoryRow,
    (cats.map (fun c => if c.id = i then applyCatUpd u c else c)).find?
        (fun c => decide (c.id = i))
      = (cats.find? (fun c => decide (c.id = i))).map (applyCatUpd u) := by
  intro cats
  induction cats with
  | nil => rfl
  | cons c t ih =>
    by_cases hc : c.id = i
    · have hid : (applyCatUpd u c).id = c.id := rfl
      simp [List.find?_cons, hc, hid]
    · simp [List.find?_cons, hc, ih]

/-- The final reload of the PUT transaction on an existing category. -/
theorem loadRoomView_eq (dbx : DB) (i : Nat) (cat : CategoryRow)
    (h : findCat dbx i = some cat) :
    loadRoomView dbx i
      = some { category := cat, prices := sortPrices (pricesOf dbx i),
               images := imagesOf dbx i } := by
  unfold loadRoomView
  rw [h]
  rfl

/-- The price-replacement step: with a submitted tier list and an
existing category, it answers 200, persists exactly the first four
submitted tiers, and reloads them sorted ascending by `hourlyHours`. -/
theorem categoriesPutPrices_spec (i : Nat) (b : CatPutBody) (db : DB) (evs : List Ev)
    (l : List PriceIn) (hp : b.prices = some l) (cat : CategoryRow)
    (hc : findCat db i = some cat) :
    (categoriesPutPrices i b db evs).status = 200
    ∧ pricesOf (categoriesPutPrices i b db evs).db i = (l.take 4).map (mkPriceRow i)
    ∧ (∃ view, (categoriesPutPrices i b db evs).data = some view
        ∧ view.prices = sortPrices (pricesOf (categoriesPutPrices i b db evs).db i)) := by
  unfold categoriesPutPrices
  rw [hp]
  dsimp only
  by_cases hlim : (l.take 4).isEmpty = true
  · have hnil : l.take 4 = [] := by
      cases hq : l.take 4 with
      | nil => rfl
      | cons a t => rw [hq] at hlim; exact Bool.noConfusion hlim
    rw [if_pos hlim]
    dsimp only
    have hfind : findCat
        { db with prices := db.prices.filter (fun r => !(decide (r.categoryId = i))) } i
        = some cat := hc
    have hpr : pricesOf
        { db with prices := db.prices.filter (fun r => !(decide (r.categoryId = i))) } i
        = ([] : List PriceRow) := by
      unfold pricesOf
      dsimp only
      exact filter_not_filter _ _
    refine ⟨rfl, ?_, ?_⟩
    · rw [hnil]
      exact hpr
    · exact ⟨_, by rw [loadRoomView_eq _ i cat hfind], rfl⟩
  · rw [if_neg hlim]
    have hfind : findCat
        { db with prices := db.prices.filter (fun r => !(decide (r.categoryId = i))) } i
        = some cat := hc
    rw [show (findCat
        { db with prices := db.prices.filter (fun r => !(decide (r.categoryId = i))) } i).isNone
        = false from by rw [hfind]; rfl]
    rw [if_neg Bool.false_ne_true]
    dsimp only
    have hfind2 : findCat
        { db with prices := db.prices.filter (fun r => !(decide (r.categoryId = i)))
            ++ (l.take 4).map (mkPriceRow i) } i = some cat := hc
    have hpr : pricesOf
        { db with prices := db.prices.filter (fun r => !(decide (r.categoryId = i)))
            ++ (l.take 4).map (mkPriceRow i) } i
        = (l.take 4).map (mkPriceRow i) := by
      unfold pricesOf
      dsimp only
      rw [List.filter_append, filter_not_filter, List.nil_append]
      refine filter_of_all _ _ (fun r hr => ?_)
      rcases List.mem_map.mp hr with ⟨p, _, hpr⟩
      exact decide_eq_true (by rw [← hpr]; rfl)
    refine ⟨rfl, hpr, ?_⟩
    exact ⟨_, by rw [loadRoomView_eq _ i cat hfind2], rfl⟩

/-- **C6**: for every submitted price-tier list of length `n` (with a
valid session, an existing category and category data that validates if
present), the replacement persists exactly the first `min n 4` tiers in
submission order — so at most 4 price rows exist afterwards — and the
response reloads them ordered ascending by `hourlyHours`. -/
theorem claim_C6_price_replacement_truncates_and_sorts :
    ∀ (v : CatValidator) (i : Nat) (b : CatPutBody) (db : DB) (cat : CategoryRow)
      (l : List PriceIn),
      findCat db i = some cat → b.prices = some l →
      (match b.categoryData with
       | none => True
       | some cd => ∃ u, v cd = some u) →
      (categoriesPUT true v i b db).status = 200
      ∧ pricesOf (categoriesPUT true v i b db).db i = (l.take 4).map (mkPriceRow i)
      ∧ (pricesOf (categoriesPUT true v i b db).db i).length = min l.length 4
      ∧ (pricesOf (categoriesPUT true v i b db).db i).length ≤ 4
      ∧ (∃ view, (categoriesPUT true v i b db).data = some view
          ∧ List.Sorted (fun a c : PriceRow => a.hourlyHours ≤ c.hourlyHours) view.prices
          ∧ view.prices.Perm (pricesOf (categoriesPUT true v i b db).db i)) := by
  intro v i b db cat l hcat hp hval
  have main : ∀ (dbx : DB) (evs : List Ev) (catx : CategoryRow),
      findCat dbx i = some catx →
      categoriesPUT true v i b db = categoriesPutPrices i b dbx evs →
      (categoriesPUT true v i b db).status = 200
      ∧ pricesOf (categoriesPUT true v i b db).db i = (l.take 4).map (mkPriceRow i)
      ∧ (pricesOf (categoriesPUT true v i b db).db i).length = min l.length 4
      ∧ (pricesOf (categoriesPUT true v i b db).db i).length ≤ 4
      ∧ (∃ view, (categoriesPUT true v i b db).data = some view
          ∧ List.Sorted (fun a c : PriceRow => a.hourlyHours ≤ c.hourlyHours) view.prices
          ∧ view.prices.Perm (pricesOf (categoriesPUT true v i b db).db i)) := by
    intro dbx evs catx hfind heq
    obtain ⟨hst, hpr, view, hdata, hview⟩ := categoriesPutPrices_spec i b dbx evs l hp catx hfind
    rw [heq]
    refine ⟨hst, hpr, ?_, ?_, ⟨view, hdata, ?_, ?_⟩⟩
    · rw [hpr, List.length_map, List.length_take]
      omega
    · rw [hpr, List.length_map, List.length_take]
      omega
    · rw [hview]
      exact sortPrices_sorted _
    · rw [hview]
      exact (sortPrices_perm _)
  cases hcd : b.categoryData with
  | none =>
    refine main db [] cat hcat ?_
    simp only [categoriesPUT, requireAdminOk, hcd, categoriesPutTx,
      Bool.not_true, Bool.false_eq_true, if_false]
  | some cd =>
    rw [hcd] at hval
    obtain ⟨u, hu⟩ := hval
    have hsome : (findCat db i).isSome = true := by rw [hcat]; rfl
    have hfind1 : findCat
        { db with categories :=
            db.categories.map (fun c => if c.id = i then applyCatUpd u c else c) } i
        = some (applyCatUpd u cat) := by
      unfold findCat
      dsimp only
      rw [findCat_map_upd]
      rw [show db.categories.find? (fun c => decide (c.id = i)) = some cat from hcat]
      rfl
    refine main _ [Ev.dbWrite "hotelCategory.update"] (applyCatUpd u cat) hfind1 ?_
    simp only [categoriesPUT, requireAdminOk, hcd, hu, categoriesPutTx, hsome,
      Bool.not_true, Bool.false_eq_true, if_false]

/-- Witness for C6: submitting five tiers for `dbFix`'s category 1
persists exactly four rows. -/
theorem claim_C6_witness :
    (findCat dbFix 1 = some catFix
      ∧ ({ prices := some fiveTiers, categoryData := none } : CatPutBody).prices
          = some fiveTiers)
    ∧ (pricesOf (categoriesPUT true idCatValidator 1
          { prices := some fiveTiers, categoryData := none } dbFix).db 1).length
        = min fiveTiers.length 4 :=
  ⟨⟨by decide, rfl⟩,
    (claim_C6_price_replacement_truncates_and_sorts idCatValidator 1
      { prices := some fiveTiers, categoryData := none } dbFix catFix fiveTiers
      (by decide) rfl trivial).2.2.1⟩

/-- **C8**: the fetch wrapper makes at most `retries + 1` attempts (and
at least one), sleeps exactly the fixed `retryDelay` between consecutive
attempts (no backoff), propagates the outcome of its last attempt,
retries only after non-abort errors, stops only on success, abort, or
the final attempt, and defaults the abort timer to 10000 ms. -/
theorem claim_C8_fetch_retry_discipline :
    ∀ (α : Type) (oracle : Nat → Except String α) (o : FetchOpts),
      1 ≤ (fetchWithTimeout oracle o).attempts
      ∧ (fetchWithTimeout oracle o).attempts ≤ o.retries.getD 0 + 1
      ∧ (fetchWithTimeout oracle o).waits
          = List.replicate ((fetchWithTimeout oracle o).attempts - 1) (o.retryDelay.getD 1000)
      ∧ (fetchWithTimeout oracle o).result = oracle ((fetchWithTimeout oracle o).attempts - 1)
      ∧ (List.range ((fetchWithTimeout oracle o).attempts - 1)).all
          (fun k => isRetryableErr (oracle k)) = true
      ∧ ((∃ r, oracle ((fetchWithTimeout oracle o).attempts - 1) = Except.ok r)
          ∨ oracle ((fetchWithTimeout oracle o).attempts - 1) = Except.error "AbortError"
          ∨ (fetchWithTimeout oracle o).attempts = o.retries.getD 0 + 1)
      ∧ effectiveTimeout { timeout := none, retries := o.retries, retryDelay := o.retryDelay }
          = 10000 := by
  intro α oracle o
  obtain ⟨⟨h1, h2⟩, hw, hr, hretry, hstop⟩ :=
    fwtGo_spec oracle (o.retryDelay.getD 1000) (o.retries.getD 0) 0
  have heq : fetchWithTimeout oracle o
      = fwtGo oracle (o.retryDelay.getD 1000) (o.retries.getD 0) 0 := rfl
  rw [heq]
  refine ⟨by omega, by omega, ?_, hr, ?_, ?_, rfl⟩
  · rw [hw, Nat.sub_zero]
  · rw [List.all_eq_true]
    intro k hk
    have hkr := List.mem_range.mp hk
    exact hretry k (Nat.zero_le k) (by omega)
  · rcases hstop with h | h | h
    · exact Or.inl h
    · exact Or.inr (Or.inl h)
    · exact Or.inr (Or.inr (by omega))
